import Mathlib

/-!
Shallow embedding of the FundMate option-parsing and portfolio-reconciliation
core (option_parser.py, utils.py, trade_confirmation_processor.py,
broker_processor.py, data_persistence.py), together with theorems settling
the spec claims about it.

Machine reals (Python floats) are embedded as exact rationals; Python `None`
is embedded as `Option.none`; a raised exception is `Except.error` (carrying
the broker state as left by the in-place mutations performed before the
raise) or, inside a parser, `Option.none`.
-/

namespace FundMate

/-! ### ASCII character helpers (Python `str.upper`, `str.lower`, regexes) -/

def isUpperA (c : Char) : Bool := 65 ≤ c.toNat && c.toNat ≤ 90

def isLowerA (c : Char) : Bool := 97 ≤ c.toNat && c.toNat ≤ 122

def isDigitA (c : Char) : Bool := 48 ≤ c.toNat && c.toNat ≤ 57

/-- Python `\s` character class: space, tab, newline, CR, vertical tab, form feed. -/
def isWs (c : Char) : Bool :=
  c == ' ' || c == '\t' || c == '\n' || c == '\x0d' || c == '\x0b' || c == '\x0c'

def upChar (c : Char) : Char :=
  if isLowerA c then Char.ofNat (c.toNat - 32) else c

def lowChar (c : Char) : Char :=
  if isUpperA c then Char.ofNat (c.toNat + 32) else c

def upList (s : String) : List Char := s.toList.map upChar

def lowList (s : String) : List Char := s.toList.map lowChar

/-- Does `cs` start with `needle`? -/
def leadsWith : List Char → List Char → Bool
  | [], _ => true
  | _ :: _, [] => false
  | a :: as, b :: bs => a == b && leadsWith as bs

/-- Substring containment on character lists (Python `needle in haystack`). -/
def hasSub (needle : List Char) : List Char → Bool
  | [] => leadsWith needle []
  | c :: rest => leadsWith needle (c :: rest) || hasSub needle rest

/-- Python `haystack.endswith(suffix)`. -/
def endsIn (suf : List Char) (cs : List Char) : Bool :=
  leadsWith suf.reverse cs.reverse

/-- Python `str.strip()`. -/
def stripChars (cs : List Char) : List Char :=
  ((cs.dropWhile isWs).reverse.dropWhile isWs).reverse

def digitVal (c : Char) : Nat := c.toNat - 48

def digitsToNat (cs : List Char) : Nat := cs.foldl (fun a c => 10 * a + digitVal c) 0

/-! ### Calendar validity (Python `datetime.date(y, m, d)` raises on invalid input) -/

def isLeapYear (y : Nat) : Bool := (y % 4 == 0 && y % 100 != 0) || (y % 400 == 0)

def daysInMonth (y m : Nat) : Nat :=
  if m == 2 then (if isLeapYear y then 29 else 28)
  else if m == 4 || m == 6 || m == 9 || m == 11 then 30
  else 31

def validDate (y m d : Nat) : Bool :=
  1 ≤ y && 1 ≤ m && m ≤ 12 && 1 ≤ d && d ≤ daysInMonth y m

/-! ### `enums.OptionType` and `option_parser.ParsedOption` -/

inductive OptionType where
  | CALL
  | PUT
deriving DecidableEq, Repr

/-- `option_parser.ParsedOption`. `expiry` is the date as `(year, month, day)`. -/
structure ParsedOption where
  formatType : String
  originalCode : String
  underlying : Option String := none
  expiry : Option (Nat × Nat × Nat) := none
  strike : Option ℚ := none
  optionType : Option OptionType := none
  multiplier : ℤ := 1
  currency : String := "USD"
  hkNumericCode : Option String := none
  hkatsResolved : Bool := false
deriving DecidableEq, Repr

/-! ### `option_parser.OTCParser` -/

/-- `OTCParser.can_parse`: any OTC keyword contained in `code.upper()`. -/
def otcCanParse (code : String) : Bool :=
  hasSub "OTC".toList (upList code) || hasSub "EURO".toList (upList code) ||
    hasSub "AMERICAN".toList (upList code)

/-- One attempt of `re.search(r'OTC-(\d{4})', code)` at the current offset. -/
def otcTickerAt (cs : List Char) : Option (List Char) :=
  if leadsWith "OTC-".toList cs then
    let four := (cs.drop 4).take 4
    if four.length == 4 && four.all isDigitA then some four else none
  else none

/-- `re.search(r'OTC-(\d{4})', code)`: first match scanning left to right. -/
def otcTicker : List Char → Option (List Char)
  | [] => none
  | c :: rest =>
    match otcTickerAt (c :: rest) with
    | some t => some t
    | none => otcTicker rest

/-- `OTCParser.parse`: keeps the code as-is; the extracted ticker is four digits,
so `ticker.isdigit()` holds exactly when the search succeeded. -/
def otcParse (code : String) : Option ParsedOption :=
  let currency := match otcTicker code.toList with
    | some _ => "HKD"
    | none => "USD"
  some { formatType := "OTC", originalCode := code, multiplier := 1, currency := currency }

/-! ### `option_parser.USOCCParser` -/

/-- Decomposition forced by `^([A-Z]{1,4})(\d{2})(\d{2})(\d{2})([CP])(\d{5})$`
(the character classes are disjoint, so the match is the maximal letter run
followed by fixed-width digit fields). -/
def usoccSplit (cs : List Char) :
    Option (List Char × List Char × List Char × List Char × Char × List Char) :=
  let t := cs.takeWhile isUpperA
  let rest := cs.drop t.length
  let d6 := rest.take 6
  if 1 ≤ t.length && t.length ≤ 4 && d6.length == 6 && d6.all isDigitA then
    match rest.drop 6 with
    | cp :: tail =>
      if (cp == 'C' || cp == 'P') && tail.length == 5 && tail.all isDigitA then
        some (t, d6.take 2, (d6.drop 2).take 2, d6.drop 4, cp, tail)
      else none
    | [] => none
  else none

/-- `USOCCParser.can_parse`: `^[A-Z]{1,4}\d{6}[CP]\d{5}$`. -/
def usoccCanParse (code : String) : Bool := (usoccSplit code.toList).isSome

/-- `USOCCParser.parse`; `none` models the `ValueError` raised by an
out-of-range calendar date. -/
def usoccParse (code : String) : Option ParsedOption :=
  match usoccSplit code.toList with
  | none => none
  | some (t, yy, mm, dd, cp, s5) =>
    let y := 2000 + digitsToNat yy
    let m := digitsToNat mm
    let d := digitsToNat dd
    if validDate y m d then
      some { formatType := "US_OCC", originalCode := code, underlying := some (String.mk t),
             expiry := some (y, m, d), strike := some ((digitsToNat s5 : ℚ) / 1000),
             optionType := some (if cp == 'C' then .CALL else .PUT),
             multiplier := 100, currency := "USD" }
    else none

/-! ### `option_parser.HKHKATSParser` -/

/-- `\s+`: at least one whitespace character, consumed maximally. -/
def dropWs1 (cs : List Char) : Option (List Char) :=
  let w := cs.takeWhile isWs
  if w.isEmpty then none else some (cs.drop w.length)

/-- `\d+\.?\d*` (a strike token), returned as an exact rational. -/
def takeStrike (cs : List Char) : Option (ℚ × List Char) :=
  let d1 := cs.takeWhile isDigitA
  if d1.isEmpty then none
  else
    match cs.drop d1.length with
    | '.' :: rest2 =>
      let d2 := rest2.takeWhile isDigitA
      some ((digitsToNat d1 : ℚ) + (digitsToNat d2 : ℚ) / ((10 : ℚ) ^ d2.length),
            rest2.drop d2.length)
    | rest => some ((digitsToNat d1 : ℚ), rest)

/-- `(CALL|PUT)` alternation. -/
def takeCallPut (cs : List Char) : Option (OptionType × List Char) :=
  if leadsWith "CALL".toList cs then some (.CALL, cs.drop 4)
  else if leadsWith "PUT".toList cs then some (.PUT, cs.drop 3)
  else none

/-- `^([A-Z]{3})\s+(\d{6})\s+(\d+\.?\d*)\s+(CALL|PUT)$` applied to the
upper-cased code, e.g. `CLI 260629 20.00 CALL`. -/
def hkatsP1 (u : List Char) : Option (String × (Nat × Nat × Nat) × ℚ × OptionType) := do
  let ls := u.takeWhile isUpperA
  guard (ls.length == 3)
  let r1 ← dropWs1 (u.drop 3)
  let ds := r1.takeWhile isDigitA
  guard (ds.length == 6)
  let r2 ← dropWs1 (r1.drop 6)
  let (st, r3) ← takeStrike r2
  let r4 ← dropWs1 r3
  let (ot, r5) ← takeCallPut r4
  guard r5.isEmpty
  pure (String.mk ls,
        (2000 + digitsToNat (ds.take 2), digitsToNat ((ds.drop 2).take 2),
         digitsToNat (ds.drop 4)), st, ot)

/-- `^\(([A-Z]{3})\.HK\s+(\d{8})\s+(CALL|PUT)\s+(\d+\.?\d*)\)$` applied to the
upper-cased code, e.g. `(CLI.HK 20260629 CALL 20.0)`. -/
def hkatsP2 (u : List Char) : Option (String × (Nat × Nat × Nat) × ℚ × OptionType) := do
  let body ← match u with
    | '(' :: t => some t
    | _ => none
  let ls := body.takeWhile isUpperA
  guard (ls.length == 3)
  let r1 := body.drop 3
  guard (leadsWith ".HK".toList r1)
  let r2 ← dropWs1 (r1.drop 3)
  let ds := r2.takeWhile isDigitA
  guard (ds.length == 8)
  let r3 ← dropWs1 (r2.drop 8)
  let (ot, r4) ← takeCallPut r3
  let r5 ← dropWs1 r4
  let (st, r6) ← takeStrike r5
  guard (r6 == [')'])
  pure (String.mk ls,
        (digitsToNat (ds.take 4), digitsToNat ((ds.drop 4).take 2),
         digitsToNat (ds.drop 6)), st, ot)

/-- `HKHKATSParser.can_parse`: either surface pattern matches `code.upper()`. -/
def hkatsCanParse (code : String) : Bool :=
  (hkatsP1 (upList code)).isSome || (hkatsP2 (upList code)).isSome

/-- `HKHKATSParser.parse`; `none` models the exception raised by an invalid
calendar date (`date(...)` / `datetime.strptime`) or a failed re-match. -/
def hkatsParse (code : String) : Option ParsedOption :=
  let build : (Nat × Nat × Nat) → String → ℚ → OptionType → Option ParsedOption :=
    fun ymd hk st ot =>
      if validDate ymd.1 ymd.2.1 ymd.2.2 then
        some { formatType := "HK_HKATS", originalCode := code, underlying := some hk,
               expiry := some ymd, strike := some st, optionType := some ot,
               multiplier := 1000, currency := "HKD", hkatsResolved := true }
      else none
  match hkatsP1 (upList code) with
  | some (hk, ymd, st, ot) => build ymd hk st ot
  | none =>
    match hkatsP2 (upList code) with
    | some (hk, ymd, st, ot) => build ymd hk st ot
    | none => none

/-! ### `option_parser.USLongFormatParser` -/

/-- `(\d{2})/(\d{2})/(\d{2})`: three fixed-width digit fields. -/
def takeDate3 (cs : List Char) : Option (Nat × Nat × Nat × List Char) := do
  let a := cs.takeWhile isDigitA
  guard (a.length == 2)
  let r1 ← match cs.drop 2 with
    | '/' :: t => some t
    | _ => none
  let b := r1.takeWhile isDigitA
  guard (b.length == 2)
  let r2 ← match r1.drop 2 with
    | '/' :: t => some t
    | _ => none
  let c := r2.takeWhile isDigitA
  guard (c.length == 2)
  pure (digitsToNat a, digitsToNat b, digitsToNat c, r2.drop 2)

/-- The common front of the US long format on the upper-cased code:
`[A-Z]+\s+US\s+MM/DD/YY\s+[CP]`, returning what follows the C/P letter. -/
def usLongFront (u : List Char) : Option (List Char × Nat × Nat × Nat × Char × List Char) := do
  let t := u.takeWhile isUpperA
  guard (!t.isEmpty)
  let r1 ← dropWs1 (u.drop t.length)
  guard (leadsWith "US".toList r1)
  let r2 ← dropWs1 (r1.drop 2)
  let (mm, dd, yy, r3) ← takeDate3 r2
  let r4 ← dropWs1 r3
  match r4 with
  | cp :: r5 =>
    if cp == 'C' || cp == 'P' then pure (t, mm, dd, yy, cp, r5) else none
  | [] => none

/-- `USLongFormatParser.can_parse`:
`re.match(r'^[A-Z]+\s+US\s+\d{2}/\d{2}/\d{2}\s+[CP]\d+', code.upper())`
— a prefix match, anything may follow the first strike digit. -/
def usLongCanParse (code : String) : Bool :=
  match usLongFront (upList code) with
  | some (_, _, _, _, _, r5) => !(r5.takeWhile isDigitA).isEmpty
  | none => false

/-- `USLongFormatParser.parse`: the fully anchored
`^([A-Z]+)\s+US\s+(\d{2})/(\d{2})/(\d{2})\s+([CP])(\d+\.?\d*)$`; `none` models
the `ValueError` for a non-matching code or an invalid calendar date. -/
def usLongParse (code : String) : Option ParsedOption := do
  let (t, mm, dd, yy, cp, r5) ← usLongFront (upList code)
  let (st, r6) ← takeStrike r5
  guard r6.isEmpty
  let y := 2000 + yy
  guard (validDate y mm dd)
  pure { formatType := "US_OCC", originalCode := code, underlying := some (String.mk t),
         expiry := some (y, mm, dd), strike := some st,
         optionType := some (if cp == 'C' then OptionType.CALL else OptionType.PUT),
         multiplier := 100, currency := "USD" }

/-! ### `option_parser.ParserRegistry` and the default registry -/

/-- One registered parser: `can_parse` plus `parse`, where `Option.none`
models a raised parse-time exception. -/
structure LParser where
  canParse : String → Bool
  parse : String → Option ParsedOption

/-- `ParserRegistry.parse`: first parser that both claims and successfully
parses wins; a parse-time exception is caught and the next parser is tried;
if none succeeds the `UNPARSEABLE` sentinel is returned. -/
def registryParse : List LParser → String → ParsedOption
  | [], code => { formatType := "UNPARSEABLE", originalCode := code }
  | p :: ps, code =>
    if p.canParse code then
      match p.parse code with
      | some r => r
      | none => registryParse ps code
    else registryParse ps code

def otcParserR : LParser := ⟨otcCanParse, otcParse⟩

def usoccParserR : LParser := ⟨usoccCanParse, usoccParse⟩

def hkatsParserR : LParser := ⟨hkatsCanParse, hkatsParse⟩

def usLongParserR : LParser := ⟨usLongCanParse, usLongParse⟩

/-- `_init_default_parsers`: registration order OTC, US OCC, HK HKATS, US long
(the HK-numeric parser is not registered by default). -/
def defaultParsers : List LParser := [otcParserR, usoccParserR, hkatsParserR, usLongParserR]

/-- `option_parser.parse_option` on the default registry. -/
def parseOption (code : String) : ParsedOption := registryParse defaultParsers code

/-! ### `utils.is_option_contract`, `utils.get_option_multiplier`,
`utils.is_money_market_fund` -/

/-- Loose OCC shape `^[A-Z]{1,4}\d{6}[CP]\d+$` used by `is_option_contract`. -/
def occLoose (cs : List Char) : Bool :=
  let t := cs.takeWhile isUpperA
  let rest := cs.drop t.length
  let d6 := rest.take 6
  1 ≤ t.length && t.length ≤ 4 && d6.length == 6 && d6.all isDigitA &&
    match rest.drop 6 with
    | c :: ds => (c == 'C' || c == 'P') && !ds.isEmpty && ds.all isDigitA
    | [] => false

def optionKeyword (u : List Char) : Bool :=
  hasSub "OPTION".toList u || hasSub "CALL".toList u || hasSub "PUT".toList u

/-- `is_option_contract`'s stock-code branch (on `stock_code.upper()`). -/
def stockCodeLooksOption (s : String) : Bool :=
  optionKeyword (upList s) || endsIn " C".toList (upList s) || endsIn " P".toList (upList s) ||
    occLoose (upList s)

/-- `is_option_contract`'s description branch (no `' C'`/`' P'` suffix check). -/
def descLooksOption (s : String) : Bool :=
  optionKeyword (upList s) || occLoose (upList s)

/-- `utils.is_option_contract` with `none` for Python `None`; an empty string
is falsy and skips its branch just as in the source. -/
def isOptionContract (sc rd : Option String) : Bool :=
  (match sc with
   | some s => !s.isEmpty && stockCodeLooksOption s
   | none => false) ||
  (match rd with
   | some s => !s.isEmpty && descLooksOption s
   | none => false)

def containsOTC (s : String) : Bool := hasSub "OTC".toList (upList s)

/-- `utils.get_option_multiplier` without a usable broker multiplier.
In the source, lines 116–131 split the non-OTC option case into an
HK-option branch and a default branch, but both return the same fallback
value 100, so the split is collapsed here. -/
def gomFallback (sc rd : Option String) : ℤ :=
  if !(isOptionContract sc rd) then 1
  else if (match sc with | some s => !s.isEmpty && containsOTC s | none => false) then 1
  else if (match rd with | some s => !s.isEmpty && containsOTC s | none => false) then 1
  else 100

/-- `utils.get_option_multiplier`: broker-provided multiplier wins when
present and positive. -/
def getOptionMultiplier (sc rd : Option String) (brokerMult : Option ℤ) : ℤ :=
  match brokerMult with
  | some m => if 0 < m then m else gomFallback sc rd
  | none => gomFallback sc rd

/-- `utils.is_money_market_fund`: case-insensitive substring check on the
description; `None` and the empty string are falsy. -/
def isMoneyMarketFund (d : Option String) : Bool :=
  match d with
  | none => false
  | some s => !s.isEmpty && hasSub "money market fund".toList (lowList s)

/-! ### Data model of the trade-confirmation engine
(`trade_confirmation_processor.py`)

Positions are plain dicts there; `none` in an optional field models an
absent key or a stored Python `None`. -/

/-- A position dict as built and consumed by the TC engine and by
`data_persistence.save_broker_data` (`price` is the extraction-layer
`'Price'` key, absent on TC-created positions). -/
structure PosDict where
  stockCode : String
  rawDescription : Option String := none
  holding : ℚ
  brokerPrice : Option ℚ := none
  priceCurrency : Option String := none
  finalPrice : Option ℚ := none
  finalPriceSource : String := ""
  optimizedPriceCurrency : String := "USD"
  multiplier : Option ℤ := none
  price : Option ℚ := none
deriving DecidableEq, Repr

/-- `trade_confirmation_processor.Transaction`. -/
structure Txn where
  date : String := ""
  broker : String
  stockCode : String
  direction : String
  quantity : ℤ
  avgPrice : ℚ := 0
  amountUsd : ℚ
  currency : String := "USD"
  market : String := ""
deriving DecidableEq, Repr

/-- `cash_data`: a Python dict from currency to a possibly-`None` amount;
first components are the keys, insertion order preserved. -/
def CashData := List (String × Option ℚ)
deriving DecidableEq, Repr

/-- `cash_data.get(c)`: `none` when the key is absent. -/
def cashLookup (m : CashData) (c : String) : Option (Option ℚ) :=
  match List.find? (fun kv => kv.1 == c) m with
  | some kv => some kv.2
  | none => none

/-- `cash_data.get(c, 0) or 0`: absent key and stored `None` (and `0`) all
collapse to `0`. -/
def cashGetOr0 (m : CashData) (c : String) : ℚ :=
  match cashLookup m c with
  | some (some v) => v
  | _ => 0

/-- `cash_data[c] = v`: replace the first binding of the key, else append. -/
def cashSet : CashData → String → ℚ → CashData
  | [], c, v => [(c, some v)]
  | kv :: rest, c, v => if kv.1 == c then (c, some v) :: rest else kv :: cashSet rest c v

/-- `broker_processor.ProcessedResult` restricted to the fields the verified
code paths touch. -/
structure ProcResult where
  brokerName : String
  accountId : String := ""
  cashData : CashData := []
  positions : List PosDict := []
  usdTotal : ℚ := 0
deriving DecidableEq, Repr

/-! ### `TradeConfirmationProcessor._find_position` and the apply functions -/

/-- `_find_position`: first an exact `StockCode` scan; then the fuzzy option
scan. The fuzzy predicate of the source
(`_parse_option_with_existing_logic` on the TC code and on the position's
`StockCode`/`RawDescription`, compared with `_options_match`) resolves HK
numeric codes through the external Futu quote service, so it is abstracted
here as a parameter `fz`; every theorem below holds for an arbitrary `fz`. -/
def findPosIdx (fz : PosDict → String → Bool) (ps : List PosDict) (code : String) :
    Option Nat :=
  match List.findIdx? (fun p => p.stockCode == code) ps with
  | some i => some i
  | none => List.findIdx? (fun p => fz p code) ps

/-- The new-position dict built by `_apply_buy` (and, with negated holding,
by the short branch of `_apply_sell`). -/
def newTxnPosition (t : Txn) (holding : ℚ) : PosDict :=
  { stockCode := t.stockCode, rawDescription := some t.stockCode, holding := holding,
    brokerPrice := some t.avgPrice, priceCurrency := some t.currency, finalPrice := none,
    finalPriceSource := "", optimizedPriceCurrency := "USD",
    multiplier := some (getOptionMultiplier (some t.stockCode) (some t.stockCode) none),
    price := none }

/-- `position['Holding'] += d` at index `i` (in-place dict mutation). -/
def bumpHolding (ps : List PosDict) (i : Nat) (d : ℚ) : List PosDict :=
  match ps.get? i with
  | some p => ps.set i { p with holding := p.holding + d }
  | none => ps

/-- The closing cash lines of `_apply_buy`: subtract `amount_usd` from the
USD cash bucket and from `usd_total`. -/
def buyCash (r : ProcResult) (t : Txn) : ProcResult :=
  { r with cashData := cashSet r.cashData "USD" (cashGetOr0 r.cashData "USD" - t.amountUsd),
           usdTotal := r.usdTotal - t.amountUsd }

/-- The closing cash lines of `_apply_sell`: add `amount_usd`. -/
def sellCash (r : ProcResult) (t : Txn) : ProcResult :=
  { r with cashData := cashSet r.cashData "USD" (cashGetOr0 r.cashData "USD" + t.amountUsd),
           usdTotal := r.usdTotal + t.amountUsd }

/-- `TradeConfirmationProcessor._apply_buy`. -/
def applyBuy (fz : PosDict → String → Bool) (r : ProcResult) (t : Txn) : ProcResult :=
  let ps := match findPosIdx fz r.positions t.stockCode with
    | some i => bumpHolding r.positions i (t.quantity : ℚ)
    | none => r.positions ++ [newTxnPosition t (t.quantity : ℚ)]
  buyCash { r with positions := ps } t

inductive TxnFailKind where
  | oversell
  | missingPosition
  | unknownDirection
deriving DecidableEq, Repr

/-- A raised `ValueError`, carrying the broker state as the in-place
mutations left it at the moment of the raise. -/
structure TxnFail where
  kind : TxnFailKind
  state : ProcResult
deriving DecidableEq, Repr

/-- Python `list.remove(p)`: drop the first element equal to `p`. -/
def eraseFirst : List PosDict → PosDict → List PosDict
  | [], _ => []
  | q :: rest, p => if q = p then rest else q :: eraseFirst rest p

/-- `TradeConfirmationProcessor._apply_sell`: short-open for negative
quantity, close-long otherwise; the oversell check runs after the holding
was already decremented, and a position whose holding lands on exactly `0`
is removed. The inner `missingPosition` fallback of the matched branch is
unreachable (`findPosIdx` only returns in-range indices). -/
def applySell (fz : PosDict → String → Bool) (r : ProcResult) (t : Txn) :
    Except TxnFail ProcResult :=
  let idx? := findPosIdx fz r.positions t.stockCode
  if t.quantity < 0 then
    let q : ℚ := ((-t.quantity : ℤ) : ℚ)
    match idx? with
    | some i => .ok (sellCash { r with positions := bumpHolding r.positions i (-q) } t)
    | none => .ok (sellCash { r with positions := r.positions ++ [newTxnPosition t (-q)] } t)
  else
    match idx? with
    | some i =>
      let ps1 := bumpHolding r.positions i (-(t.quantity : ℚ))
      match ps1.get? i with
      | some p1 =>
        if p1.holding < 0 then .error ⟨.oversell, { r with positions := ps1 }⟩
        else if p1.holding = 0 then .ok (sellCash { r with positions := eraseFirst ps1 p1 } t)
        else .ok (sellCash { r with positions := ps1 } t)
      | none => .error ⟨.missingPosition, r⟩
    | none => .error ⟨.missingPosition, r⟩

/-- One iteration of `_apply_broker_transactions`: direction normalization
and dispatch; an unknown direction raises. -/
def stepTxn (fz : PosDict → String → Bool) (r : ProcResult) (t : Txn) :
    Except TxnFail ProcResult :=
  let d := if t.direction == "SELLSHORT" then "SELL" else t.direction
  if d == "BUY" || d == "BUYCOVER" then .ok (applyBuy fz r t)
  else if d == "SELL" then applySell fz r t
  else .error ⟨.unknownDirection, r⟩

/-- `TradeConfirmationProcessor._apply_broker_transactions`. -/
def applyBrokerTxns (fz : PosDict → String → Bool) :
    ProcResult → List Txn → Except TxnFail ProcResult
  | r, [] => .ok r
  | r, t :: ts =>
    match stepTxn fz r t with
    | .ok r1 => applyBrokerTxns fz r1 ts
    | .error e => .error e

/-- `txn.broker.strip().upper()` / `result.broker_name.strip().upper()`. -/
def brokerKey (s : String) : String := String.mk ((stripChars s.toList).map upChar)

/-- The group of transactions routed to one broker result (the by-key dict
grouping of `_apply_transactions` preserves file order per key). -/
def txnsFor (txns : List Txn) (r : ProcResult) : List Txn :=
  txns.filter (fun t => brokerKey t.broker == brokerKey r.brokerName)

/-- `TradeConfirmationProcessor._apply_transactions`: each result receives
its (possibly empty) group; a broker key occurring in no result is never
visited. -/
def applyTransactions (fz : PosDict → String → Bool) :
    List ProcResult → List Txn → Except TxnFail (List ProcResult)
  | [], _ => .ok []
  | r :: rs, txns =>
    match applyBrokerTxns fz r (txnsFor txns r) with
    | .ok r1 =>
      match applyTransactions fz rs txns with
      | .ok rest => .ok (r1 :: rest)
      | .error e => .error e
    | .error e => .error e

/-- A trivial fuzzy oracle (no fuzzy match ever fires), used in concrete
evaluations. -/
def fzNone : PosDict → String → Bool := fun _ _ => false

/-! ### `position.Position` and the base (PDF) pipeline
(`broker_processor.py`) -/

/-- The `Position` dataclass with its auto-populated parse fields. -/
structure Position where
  stockCode : String
  holding : ℚ
  broker : String := ""
  brokerPrice : Option ℚ := none
  finalPrice : Option ℚ := none
  finalPriceSource : String := ""
  priceCurrency : Option String := none
  optimizedPriceCurrency : String := "USD"
  rawDescription : Option String := none
  multiplier : Option ℤ := none
  optionFormat : Option String := none
  underlying : Option String := none
  expiry : Option (Nat × Nat × Nat) := none
  strike : Option ℚ := none
  optionType : Option OptionType := none
  hkNumericCode : Option String := none
  hkatsResolved : Bool := false
deriving DecidableEq, Repr

/-- `Position.__post_init__` / `_parse_option_if_needed`: parse the stock
code with the default registry; on a non-`UNPARSEABLE` result populate the
option fields and, when no multiplier was supplied, take the parsed one. -/
def mkPosition (stockCode : String) (holding : ℚ) (broker : String)
    (brokerPrice : Option ℚ) (rawDescription : Option String)
    (priceCurrency : Option String) (multiplier : Option ℤ) : Position :=
  let base : Position :=
    { stockCode := stockCode, holding := holding, broker := broker,
      brokerPrice := brokerPrice, rawDescription := rawDescription,
      priceCurrency := priceCurrency, multiplier := multiplier }
  let parsed := parseOption stockCode
  if parsed.formatType == "UNPARSEABLE" then base
  else
    { base with
      optionFormat := some parsed.formatType, underlying := parsed.underlying,
      expiry := parsed.expiry, strike := parsed.strike, optionType := parsed.optionType,
      hkNumericCode := parsed.hkNumericCode, hkatsResolved := parsed.hkatsResolved,
      multiplier := match multiplier with
        | some m => some m
        | none => some parsed.multiplier }

/-- Steps 2–3 of `_optimize_cross_broker_pricing` seen from one position:
`oracle` is the external batch price query (`get_stock_price`), `none`
modelling a failed/empty/exception outcome; a result is stored only when
the price is positive and the returned currency is truthy. The
deduplication (one query per unique code) makes the fan-out a pure function
of the code, which is how it is modelled here. -/
def batchPrice (oracle : String → Option (ℚ × String)) (src : String) (p : Position) :
    Position :=
  match oracle p.stockCode with
  | some (pr, cur) =>
    if 0 < pr ∧ cur ≠ "" then
      { p with finalPrice := some pr, finalPriceSource := src,
               optimizedPriceCurrency := cur }
    else p
  | none => p

/-- Python `a or b` on an optional float: `None` and `0.0` both fall through. -/
def pyOr (a b : Option ℚ) : Option ℚ :=
  match a with
  | some v => if v = 0 then b else some v
  | none => b

/-- Step 4 price selection: `position.final_price or position.broker_price`. -/
def effectivePrice (p : Position) : Option ℚ := pyOr p.finalPrice p.brokerPrice

/-- Python `int(x)` on a float: truncation toward zero. -/
def truncQ (q : ℚ) : ℤ := if 0 ≤ q then Int.floor q else -Int.floor (-q)

/-- Step 4 of `_optimize_cross_broker_pricing`, one position's contribution
to the broker total: skipped when no price at all is available, else
`final_price * int(holding) * get_option_multiplier(...)`. -/
def positionContribution (p : Position) : ℚ :=
  match effectivePrice p with
  | some pr =>
    pr * (truncQ p.holding : ℚ) *
      ((getOptionMultiplier (some p.stockCode) p.rawDescription p.multiplier : ℤ) : ℚ)
  | none => 0

/-- Step 4's recomputed `total_position_value_usd` for one broker. -/
def recomputeTotal (ps : List Position) : ℚ := (ps.map positionContribution).sum

/-- Step 4's `successful_prices` counter. -/
def successCount (ps : List Position) : Nat :=
  (ps.filter (fun p => (effectivePrice p).isSome)).length

/-! ### `data_persistence.save_broker_data`, MMF reclassification block -/

/-- `holding * price` with `position.get('Price', 0)`. -/
def mmfValue (p : PosDict) : ℚ := p.holding * p.price.getD 0

/-- `position.get('PriceCurrency', 'USD')`. -/
def mmfCurrency (p : PosDict) : String := p.priceCurrency.getD "USD"

/-- Accumulate one value into the per-currency adjustment dict. -/
def addAdj : List (String × ℚ) → String → ℚ → List (String × ℚ)
  | [], c, v => [(c, v)]
  | kv :: rest, c, v =>
    if kv.1 == c then (c, kv.2 + v) :: rest else kv :: addAdj rest c v

/-- The `mmf_cash_adjustments` dict built by the detection loop. -/
def mmfAdjustments (ps : List PosDict) : List (String × ℚ) :=
  ps.foldl
    (fun m p =>
      if isMoneyMarketFund p.rawDescription then addAdj m (mmfCurrency p) (mmfValue p)
      else m)
    []

def rateLookup (rates : List (String × ℚ)) (c : String) : Option ℚ :=
  (List.find? (fun kv => kv.1 == c) rates).map (fun kv => kv.2)

/-- Apply the accumulated adjustments to `cash_data`
(`result.cash_data[currency] = float(current or 0) + value`). -/
def applyAdjustments (adjs : List (String × ℚ)) (cd : CashData) : CashData :=
  adjs.foldl (fun cd cv => cashSet cd cv.1 (cashGetOr0 cd cv.1 + cv.2)) cd

/-- The `usd_total` recomputation: USD plus HKD and CNY converted when the
bucket is truthy and a rate is present. -/
def usdTotalOf (rates : List (String × ℚ)) (cd : CashData) : ℚ :=
  cashGetOr0 cd "USD" +
    (if cashGetOr0 cd "HKD" ≠ 0 then
       match rateLookup rates "HKD" with
       | some rt => cashGetOr0 cd "HKD" * rt
       | none => 0
     else 0) +
    (if cashGetOr0 cd "CNY" ≠ 0 then
       match rateLookup rates "CNY" with
       | some rt => cashGetOr0 cd "CNY" * rt
       | none => 0
     else 0)

/-- The MMF reclassification block of `save_broker_data` (lines 90–159) for
one broker result: move money-market-fund positions into cash and, when any
adjustment was made, recompute `usd_total` from the adjusted balances. -/
def mmfReclassify (rates : List (String × ℚ)) (r : ProcResult) : ProcResult :=
  let adjs := mmfAdjustments r.positions
  let realPositions := r.positions.filter (fun p => !(isMoneyMarketFund p.rawDescription))
  let cash1 := applyAdjustments adjs r.cashData
  let r1 := { r with positions := realPositions, cashData := cash1 }
  if adjs.isEmpty then r1
  else { r1 with usdTotal := usdTotalOf rates cash1 }

/-! ### Spec-modelled canonical OCC formatter and auxiliary definitions for
the theorems -/

/-- Zero-padded two-digit decimal rendering (`f"{n:02d}"` for `n < 100`). -/
def pad2 (n : Nat) : List Char :=
  [Char.ofNat (48 + n / 10 % 10), Char.ofNat (48 + n % 10)]

/-- Zero-padded five-digit decimal rendering (`f"{n:05d}"` for `n < 100000`). -/
def pad5 (n : Nat) : List Char :=
  [Char.ofNat (48 + n / 10000 % 10), Char.ofNat (48 + n / 1000 % 10),
   Char.ofNat (48 + n / 100 % 10), Char.ofNat (48 + n / 10 % 10),
   Char.ofNat (48 + n % 10)]

/-- Modelled from the spec: the repository has no inverse formatter from a
`ParsedOption` back to a code string, so the spec's "canonical 5-digit-strike
representation" (`TICKER + YY + MM + DD + (C|P) + STRIKE*1000 zero-padded to
5 digits`) is defined here from the spec's words for the round-trip claim. -/
def formatUSOCC (po : ParsedOption) : Option String :=
  match po.underlying, po.expiry, po.optionType, po.strike with
  | some u, some (y, m, d), some ot, some st =>
    some (String.mk (u.toList ++ pad2 (y - 2000) ++ pad2 m ++ pad2 d ++
      [(if ot = OptionType.CALL then 'C' else 'P')] ++ pad5 (truncQ (st * 1000)).toNat))
  | _, _, _, _ => none

/-- The signed cash effect of one applied transaction (BUY/BUYCOVER subtract
`amount_usd`, SELL/SELLSHORT add it), following the direction normalization
of `_apply_broker_transactions`. -/
def txnCashDelta (t : Txn) : ℚ :=
  let d := if t.direction == "SELLSHORT" then "SELL" else t.direction
  if d == "BUY" || d == "BUYCOVER" then -t.amountUsd else t.amountUsd

/-- Directions accepted by `_apply_broker_transactions`; anything else raises. -/
def isKnownDirection (t : Txn) : Bool :=
  let d := if t.direction == "SELLSHORT" then "SELL" else t.direction
  d == "BUY" || d == "BUYCOVER" || d == "SELL"

/-- Sum of the values stored under one key of an adjustment dict. -/
def adjSum (m : List (String × ℚ)) (c : String) : ℚ :=
  ((m.filter (fun kv => kv.1 == c)).map (fun kv => kv.2)).sum

/-- Total market value of the money-market-fund positions reported in one
currency. -/
def mmfTotal (ps : List PosDict) (c : String) : ℚ :=
  ((ps.filter (fun p => isMoneyMarketFund p.rawDescription && (mmfCurrency p == c))).map
    mmfValue).sum

/-! ### Concrete states used by counterexamples and witnesses -/

def exPosAAPL : PosDict := { stockCode := "AAPL", holding := 3 }

def exIB : ProcResult :=
  { brokerName := "IB", cashData := [("USD", some 100)], positions := [exPosAAPL],
    usdTotal := 100 }

def exSellAAPL5 : Txn :=
  { broker := "IB", stockCode := "AAPL", direction := "SELL", quantity := 5, amountUsd := 50 }

def exPosTiny : PosDict := { stockCode := "XTINY", holding := 1 + 1 / 10000000000 }

def exTinyR : ProcResult := { brokerName := "IB", positions := [exPosTiny] }

def exSellTiny : Txn :=
  { broker := "IB", stockCode := "XTINY", direction := "SELL", quantity := 1, amountUsd := 0 }

def exXYZBuy : Txn :=
  { broker := "XYZ", stockCode := "AAPL", direction := "BUY", quantity := 5, amountUsd := 50 }

def exBadDir : Txn :=
  { broker := "IB", stockCode := "AAPL", direction := "HOLD", quantity := 1, amountUsd := 0 }

def exShortPos : PosDict := { stockCode := "TSLA", holding := -5 }

def exShortR : ProcResult := { brokerName := "IB", positions := [exShortPos] }

def exCover : Txn :=
  { broker := "IB", stockCode := "TSLA", direction := "BUYCOVER", quantity := 5,
    amountUsd := 10 }

def exC2Pos : PosDict := { stockCode := "NVDA", holding := 10 }

def exC2R : ProcResult :=
  { brokerName := "IB", cashData := [("USD", some 1000)], positions := [exC2Pos],
    usdTotal := 1000 }

def exBuyT : Txn :=
  { broker := "IB", stockCode := "NVDA", direction := "BUY", quantity := 6, amountUsd := 60 }

def exSellT : Txn :=
  { broker := "IB", stockCode := "NVDA", direction := "SELL", quantity := 4, amountUsd := 40 }

def exMMFPos : PosDict :=
  { stockCode := "CSOP", rawDescription := some "CSOP USD Money Market Fund",
    holding := 1000, priceCurrency := some "USD", price := some 1 }

def exMMFR : ProcResult :=
  { brokerName := "HTI", cashData := [("USD", some 500)], positions := [exMMFPos],
    usdTotal := 500 }

def exRates : List (String × ℚ) := [("HKD", 16 / 125), ("CNY", 7 / 50)]

/-- An equity position with a fractional holding and only a broker price. -/
def exFracPos : Position := mkPosition "AAPL" (3 / 2) "IB" (some 10) none none none

/-- Intermediate and final states of the two concrete buy/sell runs used to
witness cash conservation. -/
def exC2AfterBuy : ProcResult := applyBuy fzNone exC2R exBuyT

def exC2SellPos : PosDict := { exC2Pos with holding := exC2Pos.holding + (exBuyT.quantity : ℚ) }

def exC2S1 : ProcResult :=
  sellCash
    { exC2AfterBuy with positions :=
        (exC2AfterBuy.positions.set 0
          { exC2SellPos with holding := exC2SellPos.holding - (exSellT.quantity : ℚ) }) }
    exSellT

def exC2AfterSell : ProcResult :=
  sellCash
    { exC2R with positions :=
        (exC2R.positions.set 0
          { exC2Pos with holding := exC2Pos.holding - (exSellT.quantity : ℚ) }) }
    exSellT

def exC2S2 : ProcResult := applyBuy fzNone exC2AfterSell exBuyT

/-- A batch price query that fails for every symbol. -/
def noOracle : String → Option (ℚ × String) := fun _ => none

/-- Did the whole transaction application raise? -/
def applyTxnsFailed (x : Except TxnFail (List ProcResult)) : Bool :=
  match x with
  | .error _ => true
  | .ok _ => false

/-! ## Theorems -/

/-! ### Claim C8: OTC priority in the default registry -/

theorem otcParse_shape (code : String) :
    ∃ r, otcParse code = some r ∧ r.formatType = "OTC" ∧ r.multiplier = 1 :=
  ⟨_, rfl, rfl, rfl⟩

/-- Claim C8: every input containing the substring `OTC` (case-insensitively)
is dispatched to the OTC parser, which always succeeds, so `parse_option` on
the default registry yields format `OTC` and never `US_OCC` or `HK_HKATS` for
such inputs. -/
theorem c8_otc_priority (code : String)
    (h : hasSub "OTC".toList (upList code) = true) :
    (parseOption code).formatType = "OTC" ∧
      (parseOption code).formatType ≠ "US_OCC" ∧
      (parseOption code).formatType ≠ "HK_HKATS" := by
  have hcan : otcCanParse code = true := by
    unfold otcCanParse
    rw [show hasSub "OTC".toList (upList code) = true from h]
    rfl
  obtain ⟨r, hr, hfmt, -⟩ := otcParse_shape code
  have hparse : parseOption code = r := by
    show registryParse (otcParserR :: [usoccParserR, hkatsParserR, usLongParserR]) code = r
    rw [registryParse]
    rw [show otcParserR.canParse code = true from hcan]
    rw [show otcParserR.parse code = some r from hr]
    rfl
  rw [hparse, hfmt]
  exact ⟨rfl, by decide, by decide⟩

/-- Claim C8 witness: `OTC260116P41000` structurally matches the US OCC
grammar, yet the default registry classifies it as OTC. -/
theorem c8_witness :
    usoccCanParse "OTC260116P41000" = true ∧
      (parseOption "OTC260116P41000").formatType = "OTC" ∧
      (parseOption "OTC260116P41000").formatType ≠ "US_OCC" :=
  ⟨by decide, (c8_otc_priority "OTC260116P41000" (by decide)).1,
    (c8_otc_priority "OTC260116P41000" (by decide)).2.1⟩

/-! ### Claim C9: totality of the registry dispatch -/

/-- Claim C9: the registry dispatch is total — a parser whose `can_parse`
accepts but whose `parse` raises is skipped and the next parser is tried, a
parser whose `can_parse` rejects is skipped, and when no registered parser
both claims and successfully parses the input the result is the
`UNPARSEABLE` sentinel carrying the original code. -/
theorem c9_registry_dispatch :
    (∀ (p : LParser) (ps : List LParser) (code : String),
        p.canParse code = true → p.parse code = none →
        registryParse (p :: ps) code = registryParse ps code) ∧
    (∀ (p : LParser) (ps : List LParser) (code : String),
        p.canParse code = false →
        registryParse (p :: ps) code = registryParse ps code) ∧
    (∀ (ps : List LParser) (code : String),
        (∀ p ∈ ps, p.canParse code = true → p.parse code = none) →
        registryParse ps code =
          { formatType := "UNPARSEABLE", originalCode := code }) := by
  refine ⟨?_, ?_, ?_⟩
  · intro p ps code hcan hparse
    simp [registryParse, hcan, hparse]
  · intro p ps code hcan
    simp [registryParse, hcan]
  · intro ps code h
    induction ps with
    | nil => rfl
    | cons p ps ih =>
      have hrest : ∀ q ∈ ps, q.canParse code = true → q.parse code = none :=
        fun q hq => h q (by simp [hq])
      by_cases hc : p.canParse code = true
      · have hp : p.parse code = none := h p (by simp) hc
        rw [show registryParse (p :: ps) code = registryParse ps code by
          simp [registryParse, hc, hp]]
        exact ih hrest
      · have hc' : p.canParse code = false := by simpa using hc
        rw [show registryParse (p :: ps) code = registryParse ps code by
          simp [registryParse, hc']]
        exact ih hrest

/-- Claim C9 witness: on `ABC 991399 20.00 CALL` the HKATS parser claims the
string but its date conversion fails (month 13), so the registry moves on and,
with no parser succeeding, returns the `UNPARSEABLE` sentinel preserving the
original code. -/
theorem c9_witness :
    registryParse [hkatsParserR, usLongParserR] "ABC 991399 20.00 CALL" =
      registryParse [usLongParserR] "ABC 991399 20.00 CALL" ∧
    registryParse defaultParsers "ABC 991399 20.00 CALL" =
      { formatType := "UNPARSEABLE", originalCode := "ABC 991399 20.00 CALL" } :=
  ⟨c9_registry_dispatch.1 hkatsParserR [usLongParserR] _ (by decide) (by decide),
    c9_registry_dispatch.2.2 defaultParsers _ (by decide)⟩

/-! ### Helper lemmas about lists, cash dicts and the engine -/

theorem findIdx?_le_of_eq_some {α : Type _} (p : α → Bool) :
    ∀ (l : List α) (j i : Nat), List.findIdx? p l j = some i → j ≤ i ∧ i - j < l.length := by
  intro l
  induction l with
  | nil => intro j i h; simp [List.findIdx?_nil] at h
  | cons x xs ih =>
    intro j i h
    rw [List.findIdx?_cons] at h
    by_cases hx : p x = true
    · rw [if_pos hx] at h
      injection h with h
      subst h
      simp
    · rw [if_neg hx] at h
      have := ih (j + 1) i h
      constructor
      · omega
      · simp only [List.length_cons]
        omega

theorem findPosIdx_lt (fz : PosDict → String → Bool) (ps : List PosDict) (code : String)
    (i : Nat) (h : findPosIdx fz ps code = some i) : i < ps.length := by
  unfold findPosIdx at h
  cases h1 : List.findIdx? (fun p => p.stockCode == code) ps with
  | some j =>
    rw [h1] at h
    have h' : some j = some i := h
    injection h' with h'
    subst h'
    have := (findIdx?_le_of_eq_some _ ps 0 j h1).2
    simpa using this
  | none =>
    rw [h1] at h
    have h' : List.findIdx? (fun p => fz p code) ps = some i := h
    have := (findIdx?_le_of_eq_some _ ps 0 i h').2
    simpa using this

theorem get?_some_of_lt {α : Type _} (l : List α) (i : Nat) (h : i < l.length) :
    ∃ a, l.get? i = some a := by
  cases h1 : l.get? i with
  | some a => exact ⟨a, rfl⟩
  | none => rw [List.get?_eq_none] at h1; omega

theorem set_self_of_get? {α : Type _} :
    ∀ (l : List α) (i : Nat) (a : α), l.get? i = some a → l.set i a = l := by
  intro l
  induction l with
  | nil => intro i a h; simp at h
  | cons x xs ih =>
    intro i a h
    cases i with
    | zero =>
      have hx : a = x := by simpa using h.symm
      simp [hx]
    | succ n =>
      have := ih n a (by simpa using h)
      simp [List.set, this]

theorem cashGetOr0_set_self : ∀ (m : CashData) (c : String) (v : ℚ),
    cashGetOr0 (cashSet m c v) c = v := by
  intro m
  induction m with
  | nil => intro c v; simp [cashSet, cashGetOr0, cashLookup]
  | cons kv rest ih =>
    intro c v
    by_cases hk : kv.1 == c
    · simp [cashSet, hk, cashGetOr0, cashLookup]
    · simp only [cashSet, hk, if_false, Bool.false_eq_true]
      simp only [cashGetOr0, cashLookup, List.find?] at ih ⊢
      have hk' : (kv.1 == c) = false := by simpa using hk
      rw [hk']
      exact ih c v

theorem cashLookup_set_self : ∀ (m : CashData) (c : String) (v : ℚ),
    cashLookup (cashSet m c v) c = some (some v) := by
  intro m
  induction m with
  | nil => intro c v; simp [cashSet, cashLookup]
  | cons kv rest ih =>
    intro c v
    by_cases hk : kv.1 == c
    · simp [cashSet, hk, cashLookup]
    · simp only [cashSet, hk, if_false, Bool.false_eq_true]
      simp only [cashLookup, List.find?] at ih ⊢
      have hk' : (kv.1 == c) = false := by simpa using hk
      rw [hk']
      exact ih c v

theorem bumpHolding_eq_set (ps : List PosDict) (i : Nat) (p : PosDict) (d : ℚ)
    (hget : ps.get? i = some p) :
    bumpHolding ps i d = ps.set i { p with holding := p.holding + d } := by
  unfold bumpHolding
  rw [hget]

theorem get?_set_self_of_lt {α : Type _} (l : List α) (i : Nat) (a : α)
    (h : i < l.length) : (l.set i a).get? i = some a := by
  rw [List.get?_eq_getElem?]
  exact List.getElem?_set_self h

theorem get?_set_ne {α : Type _} (l : List α) (i j : Nat) (a : α) (h : j ≠ i) :
    (l.set i a).get? j = l.get? j := by
  rw [List.get?_eq_getElem?, List.get?_eq_getElem?]
  exact List.getElem?_set_ne (fun he => h he.symm)

/-! ### Evaluation lemmas for `applySell` on the sell-to-close path -/

theorem applySell_oversell_eq (fz : PosDict → String → Bool) (r : ProcResult) (t : Txn)
    (i : Nat) (p : PosDict)
    (hq : ¬ t.quantity < 0)
    (hfind : findPosIdx fz r.positions t.stockCode = some i)
    (hget : r.positions.get? i = some p)
    (hover : p.holding - (t.quantity : ℚ) < 0) :
    applySell fz r t = .error ⟨.oversell,
      { r with positions :=
          r.positions.set i { p with holding := p.holding - (t.quantity : ℚ) } }⟩ := by
  have hlt : i < r.positions.length := findPosIdx_lt fz r.positions t.stockCode i hfind
  have hfield : p.holding + -(t.quantity : ℚ) = p.holding - (t.quantity : ℚ) := by ring
  have hbump : bumpHolding r.positions i (-(t.quantity : ℚ)) =
      r.positions.set i { p with holding := p.holding - (t.quantity : ℚ) } := by
    rw [bumpHolding_eq_set r.positions i p _ hget, hfield]
  have hget1 : (r.positions.set i { p with holding := p.holding - (t.quantity : ℚ) }).get? i =
      some { p with holding := p.holding - (t.quantity : ℚ) } :=
    get?_set_self_of_lt _ i _ hlt
  simp only [applySell]
  rw [if_neg hq]
  split
  · rename_i i' heq
    rw [hfind] at heq
    injection heq with heq
    subst heq
    rw [hbump]
    split
    · rename_i p1 heq1
      rw [hget1] at heq1
      injection heq1 with heq1
      subst heq1
      rw [if_pos (show ({ p with holding := p.holding - (t.quantity : ℚ) } : PosDict).holding < 0
        from hover)]
    · rename_i heq1
      rw [hget1] at heq1
      exact Option.noConfusion heq1
  · rename_i heq
    rw [hfind] at heq
    exact Option.noConfusion heq

theorem applySell_close_zero_eq (fz : PosDict → String → Bool) (r : ProcResult) (t : Txn)
    (i : Nat) (p : PosDict)
    (hq : ¬ t.quantity < 0)
    (hfind : findPosIdx fz r.positions t.stockCode = some i)
    (hget : r.positions.get? i = some p)
    (hzero : p.holding - (t.quantity : ℚ) = 0) :
    applySell fz r t = .ok (sellCash
      { r with positions :=
          (eraseFirst (r.positions.set i { p with holding := (0 : ℚ) })
            { p with holding := (0 : ℚ) }) }
      t) := by
  have hlt : i < r.positions.length := findPosIdx_lt fz r.positions t.stockCode i hfind
  have hfield : p.holding + -(t.quantity : ℚ) = 0 := by
    rw [← hzero]; ring
  have hbump : bumpHolding r.positions i (-(t.quantity : ℚ)) =
      r.positions.set i { p with holding := (0 : ℚ) } := by
    rw [bumpHolding_eq_set r.positions i p _ hget, hfield]
  have hget1 : (r.positions.set i { p with holding := (0 : ℚ) }).get? i =
      some { p with holding := (0 : ℚ) } := get?_set_self_of_lt _ i _ hlt
  simp only [applySell]
  rw [if_neg hq]
  split
  · rename_i i' heq
    rw [hfind] at heq
    injection heq with heq
    subst heq
    rw [hbump]
    split
    · rename_i p1 heq1
      rw [hget1] at heq1
      injection heq1 with heq1
      subst heq1
      rw [if_neg (show ¬ ({ p with holding := (0 : ℚ) } : PosDict).holding < 0 by
          show ¬ (0 : ℚ) < 0; simp),
        if_pos (show ({ p with holding := (0 : ℚ) } : PosDict).holding = 0 from rfl)]
    · rename_i heq1
      rw [hget1] at heq1
      exact Option.noConfusion heq1
  · rename_i heq
    rw [hfind] at heq
    exact Option.noConfusion heq

theorem applySell_close_keep_eq (fz : PosDict → String → Bool) (r : ProcResult) (t : Txn)
    (i : Nat) (p : PosDict)
    (hq : ¬ t.quantity < 0)
    (hfind : findPosIdx fz r.positions t.stockCode = some i)
    (hget : r.positions.get? i = some p)
    (hkeep : 0 < p.holding - (t.quantity : ℚ)) :
    applySell fz r t = .ok (sellCash
      { r with positions :=
          r.positions.set i { p with holding := p.holding - (t.quantity : ℚ) } }
      t) := by
  have hlt : i < r.positions.length := findPosIdx_lt fz r.positions t.stockCode i hfind
  have hfield : p.holding + -(t.quantity : ℚ) = p.holding - (t.quantity : ℚ) := by ring
  have hbump : bumpHolding r.positions i (-(t.quantity : ℚ)) =
      r.positions.set i { p with holding := p.holding - (t.quantity : ℚ) } := by
    rw [bumpHolding_eq_set r.positions i p _ hget, hfield]
  have hget1 : (r.positions.set i { p with holding := p.holding - (t.quantity : ℚ) }).get? i =
      some { p with holding := p.holding - (t.quantity : ℚ) } :=
    get?_set_self_of_lt _ i _ hlt
  simp only [applySell]
  rw [if_neg hq]
  split
  · rename_i i' heq
    rw [hfind] at heq
    injection heq with heq
    subst heq
    rw [hbump]
    split
    · rename_i p1 heq1
      rw [hget1] at heq1
      injection heq1 with heq1
      subst heq1
      rw [if_neg (show ¬ ({ p with holding := p.holding - (t.quantity : ℚ) } : PosDict).holding < 0
          by show ¬ p.holding - (t.quantity : ℚ) < 0; linarith),
        if_neg (show ¬ ({ p with holding := p.holding - (t.quantity : ℚ) } : PosDict).holding = 0
          by show ¬ p.holding - (t.quantity : ℚ) = 0; intro h; rw [h] at hkeep; exact lt_irrefl 0 hkeep)]
    · rename_i heq1
      rw [hget1] at heq1
      exact Option.noConfusion heq1
  · rename_i heq
    rw [hfind] at heq
    exact Option.noConfusion heq

/-! ### Claim C1 (corrected): oversell raises, but the matched position's
holding has already been mutated -/

/-- Claim C1 counterexample: selling 5 from a holding of 3 raises the
oversell error, yet the error-time state shows the matched position already
decremented to holding −2 — the positions collection is not left unmodified
as the claim asserts. -/
theorem c1_counterexample :
    applySell fzNone exIB exSellAAPL5 =
      .error ⟨.oversell, { exIB with positions := [{ exPosAAPL with holding := -2 }] }⟩ ∧
    [({ exPosAAPL with holding := (-2 : ℚ) } : PosDict)] ≠ exIB.positions := by
  have hpos : ({ exPosAAPL with holding :=
      exPosAAPL.holding - (exSellAAPL5.quantity : ℚ) } : PosDict) =
      { exPosAAPL with holding := -2 } := by
    simp only [exPosAAPL, exSellAAPL5]
    norm_num
  constructor
  · rw [applySell_oversell_eq fzNone exIB exSellAAPL5 0 exPosAAPL (by decide) rfl rfl
      (by simp only [exPosAAPL, exSellAAPL5]; push_cast; norm_num)]
    rw [hpos]
    rfl
  · intro h
    have h0 : ({ exPosAAPL with holding := (-2 : ℚ) } : PosDict) = exPosAAPL := by
      have := congrArg (fun l : List PosDict => l.get? 0) h
      simpa [exIB] using this
    have := congrArg PosDict.holding h0
    simp only [exPosAAPL] at this
    norm_num at this

/-- Claim C1 amended: a SELL with positive quantity exceeding the matched
position's positive holding raises the oversell error without touching cash,
`usd_total`, the list length or any other position, but the matched
position's holding is left decremented by the full quantity (to a negative
value) — the in-place update is not rolled back before the raise. -/
theorem c1_oversell_mutates (fz : PosDict → String → Bool) (r : ProcResult) (t : Txn)
    (i : Nat) (p : PosDict)
    (hq : 0 < t.quantity)
    (hfind : findPosIdx fz r.positions t.stockCode = some i)
    (hget : r.positions.get? i = some p)
    (hpos : 0 < p.holding)
    (hover : p.holding < (t.quantity : ℚ)) :
    ∃ st, applySell fz r t = .error ⟨.oversell, st⟩ ∧
      st.positions.get? i = some { p with holding := p.holding - (t.quantity : ℚ) } ∧
      ({ p with holding := p.holding - (t.quantity : ℚ) } : PosDict).holding < 0 ∧
      (∀ j, j ≠ i → st.positions.get? j = r.positions.get? j) ∧
      st.positions.length = r.positions.length ∧
      st.cashData = r.cashData ∧ st.usdTotal = r.usdTotal := by
  have hlt : i < r.positions.length := findPosIdx_lt fz r.positions t.stockCode i hfind
  refine ⟨{ r with positions :=
      r.positions.set i { p with holding := p.holding - (t.quantity : ℚ) } }, ?_, ?_, ?_, ?_, ?_, rfl, rfl⟩
  · exact applySell_oversell_eq fz r t i p (by omega) hfind hget (by linarith)
  · exact get?_set_self_of_lt _ i _ hlt
  · show p.holding - (t.quantity : ℚ) < 0
    linarith
  · intro j hj
    exact get?_set_ne _ i j _ hj
  · exact List.length_set r.positions i _

/-- Claim C1 witness: the amended theorem applied to a concrete oversell
(holding 3, SELL 5). -/
theorem c1_witness :
    ∃ st, applySell fzNone exIB exSellAAPL5 = .error ⟨.oversell, st⟩ ∧
      st.positions.get? 0 =
        some { exPosAAPL with holding := exPosAAPL.holding - (exSellAAPL5.quantity : ℚ) } ∧
      ({ exPosAAPL with holding :=
          exPosAAPL.holding - (exSellAAPL5.quantity : ℚ) } : PosDict).holding < 0 ∧
      (∀ j, j ≠ 0 → st.positions.get? j = exIB.positions.get? j) ∧
      st.positions.length = exIB.positions.length ∧
      st.cashData = exIB.cashData ∧ st.usdTotal = exIB.usdTotal :=
  c1_oversell_mutates fzNone exIB exSellAAPL5 0 exPosAAPL (by decide) rfl rfl
    (by simp only [exPosAAPL]; norm_num)
    (by simp only [exPosAAPL, exSellAAPL5]; push_cast; norm_num)

/-! ### Claim C3 (corrected): removal on sell-to-close happens on exact zero,
not within a 1e-9 tolerance -/

/-- Claim C3 counterexample: selling 1 from a holding of `1 + 10⁻¹⁰` leaves a
residual holding of `10⁻¹⁰`, nonzero but well within the claimed `1e-9`
tolerance — and the position is kept, not removed. -/
theorem c3_counterexample :
    applySell fzNone exTinyR exSellTiny = .ok (sellCash
      { exTinyR with positions :=
          [{ exPosTiny with holding := exPosTiny.holding - (exSellTiny.quantity : ℚ) }] }
      exSellTiny) ∧
    exPosTiny.holding - (exSellTiny.quantity : ℚ) ≠ 0 ∧
    |exPosTiny.holding - (exSellTiny.quantity : ℚ)| < 1 / 1000000000 := by
  have hres : exPosTiny.holding - (exSellTiny.quantity : ℚ) = 1 / 10000000000 := by
    simp only [exPosTiny, exSellTiny]
    push_cast
    norm_num
  refine ⟨?_, ?_, ?_⟩
  · exact applySell_close_keep_eq fzNone exTinyR exSellTiny 0 exPosTiny (by decide) rfl rfl
      (by rw [hres]; norm_num)
  · rw [hres]; norm_num
  · rw [hres, abs_of_pos (by norm_num)]; norm_num

/-- Claim C3 amended: on a successful sell-to-close the position is removed
exactly when the resulting holding is exactly zero (`== 0`); any nonzero
residue, however small (in particular one within `1e-9`), keeps the position
in the list with the reduced holding. -/
theorem c3_removal_exact_zero (fz : PosDict → String → Bool) (r : ProcResult) (t : Txn)
    (i : Nat) (p : PosDict)
    (hq : 0 < t.quantity)
    (hfind : findPosIdx fz r.positions t.stockCode = some i)
    (hget : r.positions.get? i = some p) :
    (p.holding = (t.quantity : ℚ) →
        applySell fz r t = .ok (sellCash
          { r with positions :=
              (eraseFirst (r.positions.set i { p with holding := (0 : ℚ) })
                { p with holding := (0 : ℚ) }) }
          t)) ∧
    (0 < p.holding - (t.quantity : ℚ) →
        applySell fz r t = .ok (sellCash
          { r with positions :=
              r.positions.set i { p with holding := p.holding - (t.quantity : ℚ) } }
          t)) := by
  constructor
  · intro hzero
    exact applySell_close_zero_eq fz r t i p (by omega) hfind hget (by rw [hzero]; ring)
  · intro hkeep
    exact applySell_close_keep_eq fz r t i p (by omega) hfind hget hkeep

/-- Claim C3 witness: selling the full holding of 3 removes the position;
selling only 2 keeps it with holding 1. -/
theorem c3_witness :
    applySell fzNone exIB { exSellAAPL5 with quantity := 3 } =
      .ok (sellCash
        { exIB with positions :=
            (eraseFirst (exIB.positions.set 0 { exPosAAPL with holding := (0 : ℚ) })
              { exPosAAPL with holding := (0 : ℚ) }) }
        { exSellAAPL5 with quantity := 3 }) ∧
    applySell fzNone exIB { exSellAAPL5 with quantity := 2 } =
      .ok (sellCash
        { exIB with positions :=
            (exIB.positions.set 0
              { exPosAAPL with holding :=
                  exPosAAPL.holding - (({ exSellAAPL5 with quantity := 2 } : Txn).quantity : ℚ) }) }
        { exSellAAPL5 with quantity := 2 }) :=
  ⟨(c3_removal_exact_zero fzNone exIB { exSellAAPL5 with quantity := 3 } 0 exPosAAPL
      (by decide) rfl rfl).1 (by simp only [exPosAAPL]; push_cast; norm_num),
    (c3_removal_exact_zero fzNone exIB { exSellAAPL5 with quantity := 2 } 0 exPosAAPL
      (by decide) rfl rfl).2 (by simp only [exPosAAPL]; push_cast; norm_num)⟩

/-! ### Claim C10: a BUY never removes and never touches other positions -/

/-- Claim C10: `_apply_buy` either bumps the single matched position's
holding in place or appends one new position; it never removes a position
(every pre-existing stock code survives, the list never shrinks), and a
BUYCOVER that brings a short position to exactly zero leaves the
zero-holding position in the list (shown concretely in the last conjunct:
covering a −5 short with quantity 5). -/
theorem c10_buy_frame :
    (∀ (fz : PosDict → String → Bool) (r : ProcResult) (t : Txn),
      ((∃ i p, findPosIdx fz r.positions t.stockCode = some i ∧
          r.positions.get? i = some p ∧
          (applyBuy fz r t).positions =
            r.positions.set i { p with holding := p.holding + (t.quantity : ℚ) }) ∨
        (findPosIdx fz r.positions t.stockCode = none ∧
          (applyBuy fz r t).positions = r.positions ++ [newTxnPosition t (t.quantity : ℚ)])) ∧
      r.positions.length ≤ (applyBuy fz r t).positions.length ∧
      ((applyBuy fz r t).positions.map PosDict.stockCode = r.positions.map PosDict.stockCode ∨
        (applyBuy fz r t).positions.map PosDict.stockCode =
          r.positions.map PosDict.stockCode ++ [t.stockCode])) ∧
    (applyBuy fzNone exShortR exCover).positions =
      [{ exShortPos with holding := exShortPos.holding + (exCover.quantity : ℚ) }] ∧
    exShortPos.holding + (exCover.quantity : ℚ) = 0 := by
  refine ⟨?_, ?_, ?_⟩
  · intro fz r t
    cases hfind : findPosIdx fz r.positions t.stockCode with
    | some i =>
      have hlt : i < r.positions.length := findPosIdx_lt fz r.positions t.stockCode i hfind
      obtain ⟨p, hget⟩ := get?_some_of_lt r.positions i hlt
      have hps : (applyBuy fz r t).positions =
          r.positions.set i { p with holding := p.holding + (t.quantity : ℚ) } := by
        simp only [applyBuy, buyCash, hfind]
        exact bumpHolding_eq_set r.positions i p _ hget
      refine ⟨Or.inl ⟨i, p, rfl, hget, hps⟩, ?_, ?_⟩
      · rw [hps, List.length_set]
      · left
        rw [hps, List.map_set]
        apply set_self_of_get?
        rw [List.get?_map, hget]
        rfl
    | none =>
      have hps : (applyBuy fz r t).positions =
          r.positions ++ [newTxnPosition t (t.quantity : ℚ)] := by
        simp only [applyBuy, buyCash, hfind]
      refine ⟨Or.inr ⟨rfl, hps⟩, ?_, ?_⟩
      · rw [hps, List.length_append]
        simp
      · right
        rw [hps, List.map_append]
        rfl
  · simp only [applyBuy, buyCash, exShortR, exCover, exShortPos]
    rfl
  · simp only [exShortPos, exCover]
    push_cast
    norm_num

/-! ### Claim C2: cash conservation and order independence -/

theorem applyBuy_cash (fz : PosDict → String → Bool) (r : ProcResult) (t : Txn) :
    (applyBuy fz r t).usdTotal = r.usdTotal - t.amountUsd ∧
    cashGetOr0 (applyBuy fz r t).cashData "USD" =
      cashGetOr0 r.cashData "USD" - t.amountUsd := by
  constructor
  · cases hfind : findPosIdx fz r.positions t.stockCode <;>
      simp [applyBuy, buyCash, hfind]
  · cases hfind : findPosIdx fz r.positions t.stockCode <;>
      simp [applyBuy, buyCash, hfind, cashGetOr0_set_self]

theorem applySell_ok_cash (fz : PosDict → String → Bool) (r : ProcResult) (t : Txn)
    (r' : ProcResult) (h : applySell fz r t = .ok r') :
    r'.usdTotal = r.usdTotal + t.amountUsd ∧
    cashGetOr0 r'.cashData "USD" = cashGetOr0 r.cashData "USD" + t.amountUsd := by
  simp only [applySell] at h
  split at h
  · split at h
    · injection h with h
      subst h
      exact ⟨rfl, cashGetOr0_set_self _ _ _⟩
    · injection h with h
      subst h
      exact ⟨rfl, cashGetOr0_set_self _ _ _⟩
  · split at h
    · split at h
      · split at h
        · exact Except.noConfusion h
        · split at h
          · injection h with h
            subst h
            exact ⟨rfl, cashGetOr0_set_self _ _ _⟩
          · injection h with h
            subst h
            exact ⟨rfl, cashGetOr0_set_self _ _ _⟩
      · exact Except.noConfusion h
    · exact Except.noConfusion h

theorem stepTxn_ok_usd (fz : PosDict → String → Bool) (r : ProcResult) (t : Txn)
    (r' : ProcResult) (h : stepTxn fz r t = .ok r') :
    r'.usdTotal = r.usdTotal + txnCashDelta t := by
  have hd : txnCashDelta t =
      if ((if t.direction == "SELLSHORT" then "SELL" else t.direction) == "BUY" ||
          (if t.direction == "SELLSHORT" then "SELL" else t.direction) == "BUYCOVER") = true
      then -t.amountUsd else t.amountUsd := rfl
  simp only [stepTxn] at h
  rw [hd]
  by_cases hb : ((if t.direction == "SELLSHORT" then "SELL" else t.direction) == "BUY" ||
      (if t.direction == "SELLSHORT" then "SELL" else t.direction) == "BUYCOVER") = true
  · rw [if_pos hb] at h
    injection h with h
    subst h
    rw [if_pos hb, (applyBuy_cash fz r t).1]
    ring
  · rw [if_neg hb] at h
    rw [if_neg hb]
    by_cases hs : ((if t.direction == "SELLSHORT" then "SELL" else t.direction) == "SELL") = true
    · rw [if_pos hs] at h
      exact (applySell_ok_cash fz r t r' h).1
    · rw [if_neg hs] at h
      exact Except.noConfusion h

theorem applyBrokerTxns_ok_usd (fz : PosDict → String → Bool) :
    ∀ (ts : List Txn) (r r' : ProcResult), applyBrokerTxns fz r ts = .ok r' →
      r'.usdTotal = r.usdTotal + (ts.map txnCashDelta).sum := by
  intro ts
  induction ts with
  | nil =>
    intro r r' h
    injection h with h
    subst h
    simp
  | cons t ts ih =>
    intro r r' h
    simp only [applyBrokerTxns] at h
    cases hs : stepTxn fz r t with
    | ok r1 =>
      rw [hs] at h
      have h1 := ih r1 r' h
      rw [h1, stepTxn_ok_usd fz r t r1 hs]
      simp only [List.map_cons, List.sum_cons]
      ring
    | error e =>
      rw [hs] at h
      exact Except.noConfusion h

/-- Claim C2: an applied BUY decreases both the USD cash bucket and
`usd_total` by exactly `amount_usd` and an applied SELL (including
SELLSHORT) increases both by exactly `amount_usd`; consequently an
error-free run adds the signed sum of all transaction amounts to
`usd_total`, so any error-free permutation of the same transactions reaches
the same final `usd_total`. -/
theorem c2_cash_conservation :
    (∀ (fz : PosDict → String → Bool) (r : ProcResult) (t : Txn),
      (applyBuy fz r t).usdTotal = r.usdTotal - t.amountUsd ∧
      cashGetOr0 (applyBuy fz r t).cashData "USD" =
        cashGetOr0 r.cashData "USD" - t.amountUsd) ∧
    (∀ (fz : PosDict → String → Bool) (r : ProcResult) (t : Txn) (r' : ProcResult),
      applySell fz r t = .ok r' →
      r'.usdTotal = r.usdTotal + t.amountUsd ∧
      cashGetOr0 r'.cashData "USD" = cashGetOr0 r.cashData "USD" + t.amountUsd) ∧
    (∀ (fz : PosDict → String → Bool) (ts : List Txn) (r r' : ProcResult),
      applyBrokerTxns fz r ts = .ok r' →
      r'.usdTotal = r.usdTotal + (ts.map txnCashDelta).sum) ∧
    (∀ (fz : PosDict → String → Bool) (ts ts' : List Txn) (r r1 r2 : ProcResult),
      ts.Perm ts' →
      applyBrokerTxns fz r ts = .ok r1 → applyBrokerTxns fz r ts' = .ok r2 →
      r1.usdTotal = r2.usdTotal) := by
  refine ⟨applyBuy_cash, applySell_ok_cash, fun fz ts => applyBrokerTxns_ok_usd fz ts, ?_⟩
  intro fz ts ts' r r1 r2 hperm h1 h2
  rw [applyBrokerTxns_ok_usd fz ts r r1 h1, applyBrokerTxns_ok_usd fz ts' r r2 h2,
    (hperm.map txnCashDelta).sum_eq]

theorem applyBrokerTxns_cons_ok (fz : PosDict → String → Bool) (r : ProcResult) (t : Txn)
    (r1 : ProcResult) (ts : List Txn) (h : stepTxn fz r t = .ok r1) :
    applyBrokerTxns fz r (t :: ts) = applyBrokerTxns fz r1 ts := by
  simp only [applyBrokerTxns, h]

/-- Claim C2 witness: on a broker holding 10 NVDA with 1000 USD cash, a BUY
of 6 (60 USD) and a SELL of 4 (40 USD) both apply in either order and reach
the same final `usd_total`; the BUY alone decreases `usd_total` by exactly
its `amount_usd`. -/
theorem c2_witness :
    (applyBuy fzNone exC2R exBuyT).usdTotal = exC2R.usdTotal - exBuyT.amountUsd ∧
    applyBrokerTxns fzNone exC2R [exBuyT, exSellT] = .ok exC2S1 ∧
    applyBrokerTxns fzNone exC2R [exSellT, exBuyT] = .ok exC2S2 ∧
    exC2S1.usdTotal = exC2S2.usdTotal := by
  have hstep2 : stepTxn fzNone exC2AfterBuy exSellT = .ok exC2S1 := by
    show applySell fzNone exC2AfterBuy exSellT = .ok exC2S1
    exact applySell_close_keep_eq fzNone exC2AfterBuy exSellT 0 exC2SellPos (by decide) rfl rfl
      (by simp only [exC2SellPos, exC2Pos, exBuyT, exSellT]; push_cast; norm_num)
  have hstep1' : stepTxn fzNone exC2R exSellT = .ok exC2AfterSell := by
    show applySell fzNone exC2R exSellT = .ok exC2AfterSell
    exact applySell_close_keep_eq fzNone exC2R exSellT 0 exC2Pos (by decide) rfl rfl
      (by simp only [exC2Pos, exSellT]; push_cast; norm_num)
  have h1 : applyBrokerTxns fzNone exC2R [exBuyT, exSellT] = .ok exC2S1 := by
    rw [applyBrokerTxns_cons_ok fzNone exC2R exBuyT exC2AfterBuy [exSellT] rfl,
      applyBrokerTxns_cons_ok fzNone exC2AfterBuy exSellT exC2S1 [] hstep2]
    rfl
  have h2 : applyBrokerTxns fzNone exC2R [exSellT, exBuyT] = .ok exC2S2 := by
    rw [applyBrokerTxns_cons_ok fzNone exC2R exSellT exC2AfterSell [exBuyT] hstep1',
      applyBrokerTxns_cons_ok fzNone exC2AfterSell exBuyT exC2S2 [] rfl]
    rfl
  exact ⟨(c2_cash_conservation.1 fzNone exC2R exBuyT).1, h1, h2,
    c2_cash_conservation.2.2.2 fzNone [exBuyT, exSellT] [exSellT, exBuyT] exC2R exC2S1 exC2S2
      (List.Perm.swap exSellT exBuyT []) h1 h2⟩

/-! ### Claim C5 (corrected): transactions for unknown brokers are silently
dropped -/

theorem txnsFor_insert_unmatched (txns₁ txns₂ : List Txn) (t : Txn) (r : ProcResult)
    (h : brokerKey t.broker ≠ brokerKey r.brokerName) :
    txnsFor (txns₁ ++ t :: txns₂) r = txnsFor (txns₁ ++ txns₂) r := by
  unfold txnsFor
  rw [List.filter_append, List.filter_append, List.filter_cons,
    if_neg (by simp [h])]

theorem stepTxn_unknown_direction (fz : PosDict → String → Bool) (r : ProcResult) (t : Txn)
    (h : isKnownDirection t = false) :
    stepTxn fz r t = .error ⟨.unknownDirection, r⟩ := by
  have h' : (((if t.direction == "SELLSHORT" then "SELL" else t.direction) == "BUY" ||
      (if t.direction == "SELLSHORT" then "SELL" else t.direction) == "BUYCOVER") ||
      (if t.direction == "SELLSHORT" then "SELL" else t.direction) == "SELL") = false := h
  rw [Bool.or_eq_false_iff] at h'
  obtain ⟨hab, hc⟩ := h'
  simp only [stepTxn]
  rw [if_neg (by rw [hab]; exact Bool.false_ne_true),
    if_neg (by rw [hc]; exact Bool.false_ne_true)]

theorem applyBrokerTxns_unknown_error (fz : PosDict → String → Bool) :
    ∀ (g : List Txn) (r : ProcResult) (t : Txn), t ∈ g → isKnownDirection t = false →
      ∃ e, applyBrokerTxns fz r g = .error e := by
  intro g
  induction g with
  | nil => intro r t h; simp at h
  | cons t0 rest ih =>
    intro r t hmem hunk
    rcases List.mem_cons.mp hmem with heq | hmem'
    · subst heq
      exact ⟨⟨.unknownDirection, r⟩,
        by simp only [applyBrokerTxns, stepTxn_unknown_direction fz r t hunk]⟩
    · cases hs : stepTxn fz r t0 with
      | ok r1 =>
        obtain ⟨e, he⟩ := ih r1 t hmem' hunk
        exact ⟨e, by simp only [applyBrokerTxns, hs]; exact he⟩
      | error e => exact ⟨e, by simp only [applyBrokerTxns, hs]⟩

/-- Claim C5 counterexample: a valid BUY whose broker `XYZ` matches no
`ProcessedResult` neither mutates any broker's state nor raises — the run
returns the untouched input, so the transaction is silently dropped. -/
theorem c5_counterexample :
    applyTransactions fzNone [exIB] [exXYZBuy] = .ok [exIB] ∧
    brokerKey exXYZBuy.broker ≠ brokerKey exIB.brokerName := by
  exact ⟨rfl, by decide⟩

/-- Claim C5 amended: a transaction whose broker matches no
`ProcessedResult` is silently dropped — removing it from the list leaves the
whole application unchanged — while a transaction whose broker does match
some `ProcessedResult` and carries an unknown direction makes the whole
application raise (no matched transaction is silently skipped). -/
theorem c5_unmatched_dropped_matched_dispatched :
    (∀ (fz : PosDict → String → Bool) (results : List ProcResult)
        (txns₁ txns₂ : List Txn) (t : Txn),
      (∀ r ∈ results, brokerKey t.broker ≠ brokerKey r.brokerName) →
      applyTransactions fz results (txns₁ ++ t :: txns₂) =
        applyTransactions fz results (txns₁ ++ txns₂)) ∧
    (∀ (fz : PosDict → String → Bool) (results : List ProcResult)
        (txns : List Txn) (t : Txn),
      t ∈ txns →
      (∃ r ∈ results, brokerKey t.broker = brokerKey r.brokerName) →
      isKnownDirection t = false →
      applyTxnsFailed (applyTransactions fz results txns) = true) := by
  constructor
  · intro fz results
    induction results with
    | nil => intro txns₁ txns₂ t h; rfl
    | cons r0 rs ih =>
      intro txns₁ txns₂ t h
      have hfil : txnsFor (txns₁ ++ t :: txns₂) r0 = txnsFor (txns₁ ++ txns₂) r0 :=
        txnsFor_insert_unmatched txns₁ txns₂ t r0 (h r0 (by simp))
      have hrs := ih txns₁ txns₂ t (fun q hq => h q (by simp [hq]))
      simp only [applyTransactions]
      rw [hfil, hrs]
  · intro fz results
    induction results with
    | nil =>
      rintro txns t hmem ⟨r, hr, hkey⟩ hunk
      simp at hr
    | cons r0 rs ih =>
      rintro txns t hmem ⟨r, hr, hkey⟩ hunk
      rcases List.mem_cons.mp hr with heq | hr'
      · subst heq
        have htin : t ∈ txnsFor txns r := by
          unfold txnsFor
          rw [List.mem_filter]
          exact ⟨hmem, by simp [hkey]⟩
        obtain ⟨e, he⟩ := applyBrokerTxns_unknown_error fz (txnsFor txns r) r t htin hunk
        simp only [applyTransactions, he, applyTxnsFailed]
      · cases hs : applyBrokerTxns fz r0 (txnsFor txns r0) with
        | ok r1 =>
          have hrec := ih txns t hmem ⟨r, hr', hkey⟩ hunk
          simp only [applyTransactions, hs]
          cases hrec2 : applyTransactions fz rs txns with
          | ok rest => rw [hrec2] at hrec; exact absurd hrec (by simp [applyTxnsFailed])
          | error e => simp [applyTxnsFailed]
        | error e => simp only [applyTransactions, hs, applyTxnsFailed]

/-- Claim C5 witness: dropping the unmatched `XYZ` BUY leaves the run
unchanged, and an `IB` transaction with direction `HOLD` makes the run
raise. -/
theorem c5_witness :
    applyTransactions fzNone [exIB] ([] ++ exXYZBuy :: []) =
      applyTransactions fzNone [exIB] ([] ++ []) ∧
    applyTxnsFailed (applyTransactions fzNone [exIB] [exBadDir]) = true :=
  ⟨c5_unmatched_dropped_matched_dispatched.1 fzNone [exIB] [] [] exXYZBuy (by decide),
    c5_unmatched_dropped_matched_dispatched.2 fzNone [exIB] [exBadDir] exBadDir (by decide)
      ⟨exIB, by decide, by decide⟩ (by decide)⟩

/-! ### Claim C6: money-market-fund reclassification -/

theorem cashGetOr0_cons (k : String) (v : Option ℚ) (m : CashData) (c : String) :
    cashGetOr0 ((k, v) :: m) c = if k == c then v.getD 0 else cashGetOr0 m c := by
  cases v with
  | none =>
    by_cases h : (k == c) = true
    · simp [cashGetOr0, cashLookup, List.find?, h]
    · have h' : (k == c) = false := by simpa using h
      simp [cashGetOr0, cashLookup, List.find?, h']
  | some w =>
    by_cases h : (k == c) = true
    · simp [cashGetOr0, cashLookup, List.find?, h]
    · have h' : (k == c) = false := by simpa using h
      simp [cashGetOr0, cashLookup, List.find?, h']

theorem cashGetOr0_cashSet (m : CashData) (k : String) (w : ℚ) (c : String) :
    cashGetOr0 (cashSet m k w) c = if k == c then w else cashGetOr0 m c := by
  induction m with
  | nil =>
    show cashGetOr0 [(k, some w)] c = _
    rw [cashGetOr0_cons]
    rfl
  | cons kv rest ih =>
    obtain ⟨k0, v0⟩ := kv
    by_cases h0 : (k0 == k) = true
    · have hk : k0 = k := eq_of_beq h0
      rw [show cashSet ((k0, v0) :: rest) k w = (k, some w) :: rest by simp [cashSet, h0]]
      rw [cashGetOr0_cons, cashGetOr0_cons]
      by_cases hc : (k == c) = true
      · rw [hc]
        simp
      · have hc' : (k == c) = false := by simpa using hc
        have hk0c : (k0 == c) = false := by rw [hk]; exact hc'
        rw [hc', hk0c]
        simp
    · have h0' : (k0 == k) = false := by simpa using h0
      rw [show cashSet ((k0, v0) :: rest) k w = (k0, v0) :: cashSet rest k w by
        simp [cashSet, h0']]
      rw [cashGetOr0_cons, cashGetOr0_cons, ih]
      by_cases hc0 : (k0 == c) = true
      · have hkc : (k == c) = false := by
          have h1 : k0 = c := eq_of_beq hc0
          have h2 : ¬ k0 = k := by
            intro hh
            rw [hh] at h0'
            simp at h0'
          by_cases h3 : (k == c) = true
          · exact absurd (h1.trans (eq_of_beq h3).symm) h2
          · simpa using h3
        rw [hc0, hkc]
        simp
      · have hc0' : (k0 == c) = false := by simpa using hc0
        rw [hc0']
        simp

theorem adjSum_cons (k : String) (v : ℚ) (m : List (String × ℚ)) (c : String) :
    adjSum ((k, v) :: m) c = (if k == c then v else 0) + adjSum m c := by
  by_cases h : (k == c) = true
  · simp [adjSum, List.filter_cons, h]
  · have h' : (k == c) = false := by simpa using h
    simp [adjSum, List.filter_cons, h']

theorem adjSum_addAdj (m : List (String × ℚ)) (k : String) (v : ℚ) (c : String) :
    adjSum (addAdj m k v) c = adjSum m c + (if k == c then v else 0) := by
  induction m with
  | nil =>
    rw [show addAdj [] k v = [(k, v)] from rfl, adjSum_cons]
    show (if k == c then v else 0) + 0 = 0 + (if k == c then v else 0)
    ring
  | cons kv rest ih =>
    obtain ⟨k0, v0⟩ := kv
    by_cases h0 : (k0 == k) = true
    · have hk : k0 = k := eq_of_beq h0
      rw [show addAdj ((k0, v0) :: rest) k v = (k, v0 + v) :: rest by simp [addAdj, h0]]
      rw [adjSum_cons, adjSum_cons]
      by_cases hc : (k == c) = true
      · have hk0c : (k0 == c) = true := by rw [hk]; exact hc
        rw [hc, hk0c]
        simp
        ring
      · have hc' : (k == c) = false := by simpa using hc
        have hk0c : (k0 == c) = false := by rw [hk]; exact hc'
        rw [hc', hk0c]
        simp
    · have h0' : (k0 == k) = false := by simpa using h0
      rw [show addAdj ((k0, v0) :: rest) k v = (k0, v0) :: addAdj rest k v by
        simp [addAdj, h0']]
      rw [adjSum_cons, adjSum_cons, ih]
      ring

theorem mmfTotal_cons (p : PosDict) (ps : List PosDict) (c : String) :
    mmfTotal (p :: ps) c =
      (if isMoneyMarketFund p.rawDescription && (mmfCurrency p == c) then mmfValue p
       else 0) + mmfTotal ps c := by
  by_cases h : (isMoneyMarketFund p.rawDescription && (mmfCurrency p == c)) = true
  · simp [mmfTotal, List.filter_cons, h]
  · have h' : (isMoneyMarketFund p.rawDescription && (mmfCurrency p == c)) = false := by
      simpa using h
    simp [mmfTotal, List.filter_cons, h']

theorem adjSum_mmf_fold :
    ∀ (ps : List PosDict) (m : List (String × ℚ)) (c : String),
      adjSum (ps.foldl (fun m p => if isMoneyMarketFund p.rawDescription then
        addAdj m (mmfCurrency p) (mmfValue p) else m) m) c =
        adjSum m c + mmfTotal ps c := by
  intro ps
  induction ps with
  | nil =>
    intro m c
    simp [mmfTotal, adjSum]
  | cons p rest ih =>
    intro m c
    rw [List.foldl_cons]
    by_cases hm : isMoneyMarketFund p.rawDescription = true
    · rw [if_pos hm, ih, adjSum_addAdj, mmfTotal_cons]
      by_cases hc : (mmfCurrency p == c) = true
      · rw [hm, hc]
        simp
        ring
      · have hc' : (mmfCurrency p == c) = false := by simpa using hc
        rw [hm, hc']
        simp
    · have hm' : isMoneyMarketFund p.rawDescription = false := by simpa using hm
      rw [if_neg (by simp [hm']), ih, mmfTotal_cons, hm']
      simp

theorem adjSum_mmfAdjustments (ps : List PosDict) (c : String) :
    adjSum (mmfAdjustments ps) c = mmfTotal ps c := by
  unfold mmfAdjustments
  rw [adjSum_mmf_fold]
  show 0 + mmfTotal ps c = mmfTotal ps c
  ring

theorem applyAdjustments_get :
    ∀ (adjs : List (String × ℚ)) (cd : CashData) (c : String),
      cashGetOr0 (applyAdjustments adjs cd) c = cashGetOr0 cd c + adjSum adjs c := by
  intro adjs
  induction adjs with
  | nil =>
    intro cd c
    show cashGetOr0 cd c = cashGetOr0 cd c + adjSum [] c
    show cashGetOr0 cd c = cashGetOr0 cd c + 0
    ring
  | cons kv rest ih =>
    intro cd c
    obtain ⟨k, v⟩ := kv
    show cashGetOr0 (applyAdjustments rest (cashSet cd k (cashGetOr0 cd k + v))) c = _
    rw [ih, cashGetOr0_cashSet, adjSum_cons]
    by_cases hc : (k == c) = true
    · have hk : k = c := eq_of_beq hc
      subst hk
      rw [if_pos hc, if_pos hc]
      ring
    · have hc' : (k == c) = false := by simpa using hc
      rw [if_neg (by simp [hc']), if_neg (by simp [hc'])]
      ring

/-- Claim C6: the MMF reclassification of `save_broker_data` removes every
position whose description contains "money market fund" (case-insensitive),
adds each one's market value `holding × price` to the broker's cash bucket
in the position's reported currency, and — whenever at least one adjustment
happened — recomputes `usd_total` from the adjusted balances with the
current exchange rates; concretely, the `CSOP USD Money Market Fund`
position (holding 1000, price 1.00 USD) is removed and exactly 1000.00 USD
is added to the broker's cash. -/
theorem c6_mmf_reclassification :
    (∀ (rates : List (String × ℚ)) (r : ProcResult),
      (mmfReclassify rates r).positions =
        r.positions.filter (fun p => !(isMoneyMarketFund p.rawDescription))) ∧
    (∀ (rates : List (String × ℚ)) (r : ProcResult) (c : String),
      cashGetOr0 (mmfReclassify rates r).cashData c =
        cashGetOr0 r.cashData c + mmfTotal r.positions c) ∧
    (∀ (rates : List (String × ℚ)) (r : ProcResult),
      mmfAdjustments r.positions ≠ [] →
      (mmfReclassify rates r).usdTotal =
        usdTotalOf rates (applyAdjustments (mmfAdjustments r.positions) r.cashData)) ∧
    (isMoneyMarketFund exMMFPos.rawDescription = true ∧
      (mmfReclassify exRates exMMFR).positions = [] ∧
      cashGetOr0 (mmfReclassify exRates exMMFR).cashData "USD" = 1500 ∧
      (mmfReclassify exRates exMMFR).usdTotal = 1500) := by
  have hpos : ∀ (rates : List (String × ℚ)) (r : ProcResult),
      (mmfReclassify rates r).positions =
        r.positions.filter (fun p => !(isMoneyMarketFund p.rawDescription)) := by
    intro rates r
    simp only [mmfReclassify]
    split <;> rfl
  have hcash : ∀ (rates : List (String × ℚ)) (r : ProcResult) (c : String),
      cashGetOr0 (mmfReclassify rates r).cashData c =
        cashGetOr0 r.cashData c + mmfTotal r.positions c := by
    intro rates r c
    have hbr : (mmfReclassify rates r).cashData =
        applyAdjustments (mmfAdjustments r.positions) r.cashData := by
      simp only [mmfReclassify]
      split <;> rfl
    rw [hbr, applyAdjustments_get, adjSum_mmfAdjustments]
  have husd : ∀ (rates : List (String × ℚ)) (r : ProcResult),
      mmfAdjustments r.positions ≠ [] →
      (mmfReclassify rates r).usdTotal =
        usdTotalOf rates (applyAdjustments (mmfAdjustments r.positions) r.cashData) := by
    intro rates r hne
    simp only [mmfReclassify]
    split
    · rename_i hemp
      exact absurd (by simpa using hemp) hne
    · rfl
  refine ⟨hpos, hcash, husd, rfl, by rw [hpos]; rfl, ?_, ?_⟩
  · rw [hcash]
    show (500 : ℚ) + mmfTotal [exMMFPos] "USD" = 1500
    rw [mmfTotal_cons]
    rw [if_pos (by decide)]
    show (500 : ℚ) + ((1000 : ℚ) * 1 + 0) = 1500
    norm_num
  · rw [husd exRates exMMFR (by decide)]
    unfold usdTotalOf
    have hUSD : cashGetOr0 (applyAdjustments (mmfAdjustments exMMFR.positions)
        exMMFR.cashData) "USD" = 1500 := by
      rw [applyAdjustments_get, adjSum_mmfAdjustments]
      show (500 : ℚ) + mmfTotal [exMMFPos] "USD" = 1500
      rw [mmfTotal_cons, if_pos (by decide)]
      show (500 : ℚ) + ((1000 : ℚ) * 1 + 0) = 1500
      norm_num
    have hHKD : cashGetOr0 (applyAdjustments (mmfAdjustments exMMFR.positions)
        exMMFR.cashData) "HKD" = 0 := by
      rw [applyAdjustments_get, adjSum_mmfAdjustments]
      show (0 : ℚ) + mmfTotal [exMMFPos] "HKD" = 0
      rw [mmfTotal_cons, if_neg (by decide)]
      show (0 : ℚ) + (0 + 0) = 0
      norm_num
    have hCNY : cashGetOr0 (applyAdjustments (mmfAdjustments exMMFR.positions)
        exMMFR.cashData) "CNY" = 0 := by
      rw [applyAdjustments_get, adjSum_mmfAdjustments]
      show (0 : ℚ) + mmfTotal [exMMFPos] "CNY" = 0
      rw [mmfTotal_cons, if_neg (by decide)]
      show (0 : ℚ) + (0 + 0) = 0
      norm_num
    rw [hUSD, hHKD, hCNY]
    norm_num

/-- Claim C6 witness: the `usd_total` recomputation clause instantiated on
the CSOP money-market-fund example, together with the general cash equation
at the USD bucket. -/
theorem c6_witness :
    (mmfReclassify exRates exMMFR).usdTotal =
      usdTotalOf exRates (applyAdjustments (mmfAdjustments exMMFR.positions)
        exMMFR.cashData) ∧
    cashGetOr0 (mmfReclassify exRates exMMFR).cashData "USD" =
      cashGetOr0 exMMFR.cashData "USD" + mmfTotal exMMFR.positions "USD" :=
  ⟨c6_mmf_reclassification.2.2.1 exRates exMMFR (by decide),
    c6_mmf_reclassification.2.1 exRates exMMFR "USD"⟩

/-! ### Claim C4: output shapes of the default parsers and the multiplier
resolution -/

theorem usoccParse_shape (code : String) (r : ParsedOption) (h : usoccParse code = some r) :
    r.formatType = "US_OCC" ∧ r.multiplier = 100 := by
  simp only [usoccParse] at h
  split at h
  · exact Option.noConfusion h
  · split at h
    · injection h with h
      subst h
      exact ⟨rfl, rfl⟩
    · exact Option.noConfusion h

theorem hkatsParse_shape (code : String) (r : ParsedOption) (h : hkatsParse code = some r) :
    r.formatType = "HK_HKATS" ∧ r.multiplier = 1000 := by
  simp only [hkatsParse] at h
  split at h
  · split at h
    · injection h with h
      subst h
      exact ⟨rfl, rfl⟩
    · exact Option.noConfusion h
  · split at h
    · split at h
      · injection h with h
        subst h
        exact ⟨rfl, rfl⟩
      · exact Option.noConfusion h
    · exact Option.noConfusion h

theorem obind_some {α β : Type _} (x : Option α) (f : α → Option β) (b : β)
    (h : (x >>= f) = some b) : ∃ a, x = some a ∧ f a = some b := by
  cases x with
  | none => exact Option.noConfusion h
  | some a => exact ⟨a, rfl, h⟩

theorem usLongParse_shape (code : String) (r : ParsedOption) (h : usLongParse code = some r) :
    r.formatType = "US_OCC" ∧ r.multiplier = 100 := by
  unfold usLongParse at h
  obtain ⟨⟨t, mm, dd, yy, cp, r5⟩, -, h⟩ := obind_some _ _ _ h
  obtain ⟨⟨st, r6⟩, -, h⟩ := obind_some _ _ _ h
  obtain ⟨-, -, h⟩ := obind_some _ _ _ h
  obtain ⟨-, -, h⟩ := obind_some _ _ _ h
  injection h with h
  subst h
  exact ⟨rfl, rfl⟩

/-- Any result the default registry can produce carries one of the four
format/multiplier pairs of its registered parsers (or the sentinel). -/
theorem registryParse_format_mult (ps : List LParser) (code : String)
    (hps : ∀ p ∈ ps, ∀ r, p.parse code = some r →
      (r.formatType = "OTC" ∧ r.multiplier = 1) ∨
      (r.formatType = "US_OCC" ∧ r.multiplier = 100) ∨
      (r.formatType = "HK_HKATS" ∧ r.multiplier = 1000)) :
    ((registryParse ps code).formatType = "OTC" ∧ (registryParse ps code).multiplier = 1) ∨
    ((registryParse ps code).formatType = "US_OCC" ∧
      (registryParse ps code).multiplier = 100) ∨
    ((registryParse ps code).formatType = "HK_HKATS" ∧
      (registryParse ps code).multiplier = 1000) ∨
    ((registryParse ps code).formatType = "UNPARSEABLE" ∧
      (registryParse ps code).multiplier = 1) := by
  induction ps with
  | nil => exact Or.inr (Or.inr (Or.inr ⟨rfl, rfl⟩))
  | cons p ps ih =>
    have hrest : ∀ q ∈ ps, ∀ r, q.parse code = some r →
        (r.formatType = "OTC" ∧ r.multiplier = 1) ∨
        (r.formatType = "US_OCC" ∧ r.multiplier = 100) ∨
        (r.formatType = "HK_HKATS" ∧ r.multiplier = 1000) :=
      fun q hq => hps q (by simp [hq])
    rw [registryParse]
    split
    · split
      · rename_i r heq
        rcases hps p (by simp) r heq with h | h | h
        · exact Or.inl h
        · exact Or.inr (Or.inl h)
        · exact Or.inr (Or.inr (Or.inl h))
      · exact ih hrest
    · exact ih hrest

/-- Every default-registry output is OTC with multiplier 1, US OCC with
multiplier 100, HK HKATS with multiplier 1000, or the sentinel with the
default multiplier 1. -/
theorem parseOption_cases (code : String) :
    ((parseOption code).formatType = "OTC" ∧ (parseOption code).multiplier = 1) ∨
    ((parseOption code).formatType = "US_OCC" ∧ (parseOption code).multiplier = 100) ∨
    ((parseOption code).formatType = "HK_HKATS" ∧ (parseOption code).multiplier = 1000) ∨
    ((parseOption code).formatType = "UNPARSEABLE" ∧ (parseOption code).multiplier = 1) := by
  refine registryParse_format_mult defaultParsers code ?_
  intro p hp r h
  have hp' : p = otcParserR ∨ p = usoccParserR ∨ p = hkatsParserR ∨ p = usLongParserR := by
    simpa [defaultParsers] using hp
  rcases hp' with rfl | rfl | rfl | rfl
  · obtain ⟨r0, hr0, hf, hm⟩ := otcParse_shape code
    rw [show otcParserR.parse code = some r0 from hr0] at h
    injection h with h
    subst h
    exact Or.inl ⟨hf, hm⟩
  · exact Or.inr (Or.inl (usoccParse_shape code r h))
  · exact Or.inr (Or.inr (hkatsParse_shape code r h))
  · exact Or.inr (Or.inl (usLongParse_shape code r h))

theorem parseOption_mult_of_usocc (code : String)
    (h : (parseOption code).formatType = "US_OCC") : (parseOption code).multiplier = 100 := by
  rcases parseOption_cases code with ⟨hf, hm⟩ | ⟨hf, hm⟩ | ⟨hf, hm⟩ | ⟨hf, hm⟩ <;>
    first
      | exact hm
      | (rw [hf] at h; exact absurd h (by decide))

theorem parseOption_mult_of_hkats (code : String)
    (h : (parseOption code).formatType = "HK_HKATS") :
    (parseOption code).multiplier = 1000 := by
  rcases parseOption_cases code with ⟨hf, hm⟩ | ⟨hf, hm⟩ | ⟨hf, hm⟩ | ⟨hf, hm⟩ <;>
    first
      | exact hm
      | (rw [hf] at h; exact absurd h (by decide))

theorem parseOption_mult_of_otc (code : String)
    (h : (parseOption code).formatType = "OTC") : (parseOption code).multiplier = 1 := by
  rcases parseOption_cases code with ⟨hf, hm⟩ | ⟨hf, hm⟩ | ⟨hf, hm⟩ | ⟨hf, hm⟩ <;>
    first
      | exact hm
      | (rw [hf] at h; exact absurd h (by decide))

/-! ### Claim C4: `Position` construction and the step-4 value recomputation -/

theorem mkPosition_fields (code : String) (h : ℚ) (bk : String) (bp : Option ℚ)
    (rd : Option String) (pc : Option String) (bm : Option ℤ) :
    (mkPosition code h bk bp rd pc bm).stockCode = code ∧
    (mkPosition code h bk bp rd pc bm).holding = h ∧
    (mkPosition code h bk bp rd pc bm).rawDescription = rd ∧
    (mkPosition code h bk bp rd pc bm).brokerPrice = bp ∧
    (mkPosition code h bk bp rd pc bm).finalPrice = none := by
  simp only [mkPosition]
  split <;> exact ⟨rfl, rfl, rfl, rfl, rfl⟩

theorem mkPosition_mult_some (code : String) (h : ℚ) (bk : String) (bp : Option ℚ)
    (rd : Option String) (pc : Option String) (m : ℤ) :
    (mkPosition code h bk bp rd pc (some m)).multiplier = some m := by
  simp only [mkPosition]
  split <;> rfl

theorem mkPosition_mult_parsed (code : String) (h : ℚ) (bk : String) (bp : Option ℚ)
    (rd : Option String) (pc : Option String)
    (hf : (parseOption code).formatType ≠ "UNPARSEABLE") :
    (mkPosition code h bk bp rd pc none).multiplier = some (parseOption code).multiplier := by
  simp only [mkPosition]
  have hb : ((parseOption code).formatType == "UNPARSEABLE") = false := by
    simpa using hf
  rw [hb]
  rfl

theorem mkPosition_mult_unparsed (code : String) (h : ℚ) (bk : String) (bp : Option ℚ)
    (rd : Option String) (pc : Option String)
    (hf : (parseOption code).formatType = "UNPARSEABLE") :
    (mkPosition code h bk bp rd pc none).multiplier = none := by
  simp only [mkPosition]
  have hb : ((parseOption code).formatType == "UNPARSEABLE") = true := by
    simpa using hf
  rw [hb]
  rfl

theorem batchPrice_stored (oracle : String → Option (ℚ × String)) (src : String)
    (p : Position) (pr : ℚ) (cur : String) (ho : oracle p.stockCode = some (pr, cur))
    (hpr : 0 < pr) (hcur : cur ≠ "") :
    batchPrice oracle src p =
      { p with finalPrice := some pr, finalPriceSource := src,
               optimizedPriceCurrency := cur } := by
  unfold batchPrice
  rw [ho]
  exact if_pos ⟨hpr, hcur⟩

theorem batchPrice_miss (oracle : String → Option (ℚ × String)) (src : String)
    (p : Position) (ho : oracle p.stockCode = none) : batchPrice oracle src p = p := by
  unfold batchPrice
  rw [ho]

theorem effectivePrice_final (p : Position) (pr : ℚ) (hp : p.finalPrice = some pr)
    (h0 : pr ≠ 0) : effectivePrice p = some pr := by
  unfold effectivePrice pyOr
  rw [hp]
  exact if_neg h0

theorem effectivePrice_noFinal (p : Position) (hp : p.finalPrice = none) :
    effectivePrice p = p.brokerPrice := by
  unfold effectivePrice pyOr
  rw [hp]

theorem positionContribution_of_price (p : Position) (pr : ℚ)
    (he : effectivePrice p = some pr) :
    positionContribution p =
      pr * (truncQ p.holding : ℚ) *
        ((getOptionMultiplier (some p.stockCode) p.rawDescription p.multiplier : ℤ) : ℚ) := by
  unfold positionContribution
  rw [he]

theorem getOptionMultiplier_broker (sc rd : Option String) (m : ℤ) (hm : 0 < m) :
    getOptionMultiplier sc rd (some m) = m := by
  unfold getOptionMultiplier
  exact if_pos hm

theorem getOptionMultiplier_equity (sc rd : Option String)
    (hopt : isOptionContract sc rd = false) : getOptionMultiplier sc rd none = 1 := by
  unfold getOptionMultiplier gomFallback
  rw [hopt]
  rfl

/-- Claim C4 (amended): in the step-4 value recomputation the effective price
is the batch-stored `final_price` when the query succeeded for the code (and
the statement-reported `broker_price` when it did not); the multiplier is
resolved broker-supplied first, then the parsed-option multiplier (100 for
US OCC, 1000 for HK HKATS, 1 for OTC), then 1 for non-option codes; but a
position's contribution to the broker total is
`price * int(holding) * multiplier` with the holding truncated toward zero
to an integer, not `price * holding * multiplier`. -/
theorem c4_value_recomputation :
    (∀ (oracle : String → Option (ℚ × String)) (src : String) (p : Position) (pr : ℚ)
        (cur : String), p.finalPrice = none → oracle p.stockCode = some (pr, cur) →
        0 < pr → cur ≠ "" → effectivePrice (batchPrice oracle src p) = some pr) ∧
    (∀ (oracle : String → Option (ℚ × String)) (src : String) (p : Position),
        p.finalPrice = none → oracle p.stockCode = none →
        effectivePrice (batchPrice oracle src p) = p.brokerPrice) ∧
    (∀ (p : Position) (pr : ℚ), effectivePrice p = some pr →
        positionContribution p =
          pr * (truncQ p.holding : ℚ) *
            ((getOptionMultiplier (some p.stockCode) p.rawDescription p.multiplier : ℤ) :
              ℚ)) ∧
    (∀ (code : String) (h : ℚ) (bk : String) (bp : Option ℚ) (rd : Option String)
        (pc : Option String) (m : ℤ), 0 < m →
        getOptionMultiplier (some code) rd
          (mkPosition code h bk bp rd pc (some m)).multiplier = m) ∧
    (∀ (code : String) (h : ℚ) (bk : String) (bp : Option ℚ) (rd : Option String)
        (pc : Option String),
        ((parseOption code).formatType = "US_OCC" →
          getOptionMultiplier (some code) rd
            (mkPosition code h bk bp rd pc none).multiplier = 100) ∧
        ((parseOption code).formatType = "HK_HKATS" →
          getOptionMultiplier (some code) rd
            (mkPosition code h bk bp rd pc none).multiplier = 1000) ∧
        ((parseOption code).formatType = "OTC" →
          getOptionMultiplier (some code) rd
            (mkPosition code h bk bp rd pc none).multiplier = 1) ∧
        ((parseOption code).formatType = "UNPARSEABLE" →
          isOptionContract (some code) rd = false →
          getOptionMultiplier (some code) rd
            (mkPosition code h bk bp rd pc none).multiplier = 1)) ∧
    (∀ (p : Position) (ps : List Position),
        recomputeTotal (p :: ps) = positionContribution p + recomputeTotal ps) := by
  refine ⟨?_, ?_, ?_, ?_, ?_, ?_⟩
  · intro oracle src p pr cur hfp ho hpr hcur
    rw [batchPrice_stored oracle src p pr cur ho hpr hcur]
    exact effectivePrice_final _ pr rfl (ne_of_gt hpr)
  · intro oracle src p hfp ho
    rw [batchPrice_miss oracle src p ho]
    exact effectivePrice_noFinal p hfp
  · intro p pr he
    exact positionContribution_of_price p pr he
  · intro code h bk bp rd pc m hm
    rw [mkPosition_mult_some]
    exact getOptionMultiplier_broker _ _ m hm
  · intro code h bk bp rd pc
    refine ⟨?_, ?_, ?_, ?_⟩
    · intro hf
      rw [mkPosition_mult_parsed code h bk bp rd pc (by rw [hf]; decide)]
      rw [parseOption_mult_of_usocc code hf]
      exact getOptionMultiplier_broker _ _ 100 (by decide)
    · intro hf
      rw [mkPosition_mult_parsed code h bk bp rd pc (by rw [hf]; decide)]
      rw [parseOption_mult_of_hkats code hf]
      exact getOptionMultiplier_broker _ _ 1000 (by decide)
    · intro hf
      rw [mkPosition_mult_parsed code h bk bp rd pc (by rw [hf]; decide)]
      rw [parseOption_mult_of_otc code hf]
      exact getOptionMultiplier_broker _ _ 1 (by decide)
    · intro hf hopt
      rw [mkPosition_mult_unparsed code h bk bp rd pc hf]
      exact getOptionMultiplier_equity (some code) rd hopt
  · intro p ps
    simp [recomputeTotal]

/-- Claim C4 counterexample: the equity position `AAPL`, holding `3/2`,
broker price `10`, no batch price. Its actual step-4 contribution is
`10 * int(3/2) * 1 = 10`, while the claimed formula
`price * holding * multiplier` gives `10 * (3/2) * 1 = 15`. -/
theorem c4_counterexample :
    exFracPos.holding = 3 / 2 ∧
    effectivePrice exFracPos = some 10 ∧
    getOptionMultiplier (some exFracPos.stockCode) exFracPos.rawDescription
      exFracPos.multiplier = 1 ∧
    positionContribution exFracPos = 10 ∧
    (10 : ℚ) ≠ 10 * (3 / 2) * 1 := by
  have hfp : exFracPos.finalPrice = none := rfl
  have hbp : exFracPos.brokerPrice = some 10 := rfl
  have he : effectivePrice exFracPos = some 10 := by
    rw [effectivePrice_noFinal exFracPos hfp]
    exact hbp
  have hm : getOptionMultiplier (some exFracPos.stockCode) exFracPos.rawDescription
      exFracPos.multiplier = 1 := rfl
  have ht : truncQ exFracPos.holding = 1 := by
    show truncQ (3 / 2 : ℚ) = 1
    unfold truncQ
    rw [if_pos (by norm_num : (0 : ℚ) ≤ 3 / 2)]
    rw [Int.floor_eq_iff]
    constructor <;> norm_num
  have hc : positionContribution exFracPos = 10 := by
    rw [positionContribution_of_price exFracPos 10 he, hm, ht]
    norm_num
  exact ⟨rfl, he, hm, hc, by norm_num⟩

/-- Claim C4 witness: a successful batch price becomes the effective price,
and for the US OCC code `SBET260116P41000` the parsed multiplier 100 is used. -/
theorem c4_witness :
    effectivePrice (batchPrice (fun c => if c = "AAPL" then some (5, "USD") else none)
      "cross_broker" (mkPosition "AAPL" 2 "IB" (some 10) none none none)) = some 5 ∧
    getOptionMultiplier (some "SBET260116P41000") none
      (mkPosition "SBET260116P41000" 2 "IB" none none none none).multiplier = 100 := by
  constructor
  · exact c4_value_recomputation.1 _ "cross_broker"
      (mkPosition "AAPL" 2 "IB" (some 10) none none none) 5 "USD" rfl rfl
      (by norm_num) (by decide)
  · exact (c4_value_recomputation.2.2.2.2.1 "SBET260116P41000" 2 "IB" none none
      none).1 (by decide)

/-! ### Claim C7: US OCC parse fields and the canonical round trip -/

theorem digitVal_lt (c : Char) (h : isDigitA c = true) : digitVal c < 10 := by
  have h' : 48 ≤ c.toNat ∧ c.toNat ≤ 57 := by simpa [isDigitA] using h
  unfold digitVal
  omega

theorem char_ofNat_digit (c : Char) (h : isDigitA c = true) :
    Char.ofNat (48 + digitVal c) = c := by
  have h' : 48 ≤ c.toNat ∧ c.toNat ≤ 57 := by simpa [isDigitA] using h
  have e : 48 + digitVal c = c.toNat := by
    unfold digitVal
    omega
  rw [e]
  exact Char.ofNat_toNat c

theorem digit_not_upper (c : Char) (h : isDigitA c = true) : isUpperA c = false := by
  have h' : 48 ≤ c.toNat ∧ c.toNat ≤ 57 := by simpa [isDigitA] using h
  have hn : ¬ (65 ≤ c.toNat) := by omega
  simp [isUpperA, hn]

theorem digitsToNat_two (a b : Char) :
    digitsToNat [a, b] = 10 * digitVal a + digitVal b := by
  unfold digitsToNat
  simp only [List.foldl]
  omega

theorem digitsToNat_five (a b c d e : Char) :
    digitsToNat [a, b, c, d, e] =
      10000 * digitVal a + 1000 * digitVal b + 100 * digitVal c + 10 * digitVal d +
        digitVal e := by
  unfold digitsToNat
  simp only [List.foldl]
  omega

theorem pad2_digits (a b : Char) (ha : isDigitA a = true) (hb : isDigitA b = true) :
    pad2 (digitsToNat [a, b]) = [a, b] := by
  have hva := digitVal_lt a ha
  have hvb := digitVal_lt b hb
  rw [digitsToNat_two]
  unfold pad2
  have e1 : (10 * digitVal a + digitVal b) / 10 % 10 = digitVal a := by omega
  have e2 : (10 * digitVal a + digitVal b) % 10 = digitVal b := by omega
  rw [e1, e2, char_ofNat_digit a ha, char_ofNat_digit b hb]

theorem pad5_digits (a b c d e : Char) (ha : isDigitA a = true) (hb : isDigitA b = true)
    (hc : isDigitA c = true) (hd : isDigitA d = true) (he : isDigitA e = true) :
    pad5 (digitsToNat [a, b, c, d, e]) = [a, b, c, d, e] := by
  have hva := digitVal_lt a ha
  have hvb := digitVal_lt b hb
  have hvc := digitVal_lt c hc
  have hvd := digitVal_lt d hd
  have hve := digitVal_lt e he
  rw [digitsToNat_five]
  unfold pad5
  have e1 : (10000 * digitVal a + 1000 * digitVal b + 100 * digitVal c +
      10 * digitVal d + digitVal e) / 10000 % 10 = digitVal a := by omega
  have e2 : (10000 * digitVal a + 1000 * digitVal b + 100 * digitVal c +
      10 * digitVal d + digitVal e) / 1000 % 10 = digitVal b := by omega
  have e3 : (10000 * digitVal a + 1000 * digitVal b + 100 * digitVal c +
      10 * digitVal d + digitVal e) / 100 % 10 = digitVal c := by omega
  have e4 : (10000 * digitVal a + 1000 * digitVal b + 100 * digitVal c +
      10 * digitVal d + digitVal e) / 10 % 10 = digitVal d := by omega
  have e5 : (10000 * digitVal a + 1000 * digitVal b + 100 * digitVal c +
      10 * digitVal d + digitVal e) % 10 = digitVal e := by omega
  rw [e1, e2, e3, e4, e5, char_ofNat_digit a ha, char_ofNat_digit b hb,
    char_ofNat_digit c hc, char_ofNat_digit d hd, char_ofNat_digit e he]

theorem truncQ_natCast (n : ℕ) : truncQ (n : ℚ) = n := by
  unfold truncQ
  rw [if_pos (Nat.cast_nonneg n)]
  exact Int.floor_natCast n

theorem takeWhile_all_not {α : Type _} (p : α → Bool) :
    ∀ (t : List α) (b : α) (rest : List α), t.all p = true → p b = false →
      (t ++ b :: rest).takeWhile p = t := by
  intro t
  induction t with
  | nil =>
    intro b rest _ hb
    simp [List.takeWhile_cons, hb]
  | cons a t ih =>
    intro b rest hall hb
    rw [List.all_cons, Bool.and_eq_true] at hall
    simp [List.takeWhile_cons, hall.1, ih b rest hall.2 hb]

/-- Claim C7: every code of the US OCC surface grammar — 1–4 capital-letter
ticker, six date digits, `C` or `P`, five strike digits — with an in-range
calendar date is parsed by `USOCCParser` into underlying = ticker,
expiry = 20YY‑MM‑DD, option type CALL/PUT from the C/P letter,
strike = five-digit field / 1000, multiplier 100, currency USD, and the
spec's canonical 5-digit-strike formatter reproduces the original code
character for character. -/
theorem c7_usocc_roundtrip (t : List Char) (y1 y2 m1 m2 d1 d2 cp n1 n2 n3 n4 n5 : Char)
    (ht1 : 1 ≤ t.length) (ht4 : t.length ≤ 4) (htU : t.all isUpperA = true)
    (hds : [y1, y2, m1, m2, d1, d2].all isDigitA = true)
    (hcp : cp = 'C' ∨ cp = 'P')
    (hs5 : [n1, n2, n3, n4, n5].all isDigitA = true)
    (hdate : validDate (2000 + digitsToNat [y1, y2]) (digitsToNat [m1, m2])
      (digitsToNat [d1, d2]) = true) :
    ∃ r, usoccParse (String.mk
        (t ++ y1 :: y2 :: m1 :: m2 :: d1 :: d2 :: cp :: n1 :: n2 :: n3 :: n4 :: [n5])) =
          some r ∧
      r.formatType = "US_OCC" ∧
      r.underlying = some (String.mk t) ∧
      r.expiry = some (2000 + digitsToNat [y1, y2], digitsToNat [m1, m2],
        digitsToNat [d1, d2]) ∧
      r.optionType = some (if cp == 'C' then OptionType.CALL else OptionType.PUT) ∧
      r.strike = some ((digitsToNat [n1, n2, n3, n4, n5] : ℚ) / 1000) ∧
      r.multiplier = 100 ∧
      r.currency = "USD" ∧
      formatUSOCC r = some (String.mk
        (t ++ y1 :: y2 :: m1 :: m2 :: d1 :: d2 :: cp :: n1 :: n2 :: n3 :: n4 :: [n5])) := by
  have hds' : isDigitA y1 = true ∧ isDigitA y2 = true ∧ isDigitA m1 = true ∧
      isDigitA m2 = true ∧ isDigitA d1 = true ∧ isDigitA d2 = true := by
    simpa [List.all_cons] using hds
  obtain ⟨hy1, hy2, hm1, hm2, hd1, hd2⟩ := hds'
  have hs5' : isDigitA n1 = true ∧ isDigitA n2 = true ∧ isDigitA n3 = true ∧
      isDigitA n4 = true ∧ isDigitA n5 = true := by
    simpa [List.all_cons] using hs5
  obtain ⟨hn1, hn2, hn3, hn4, hn5⟩ := hs5'
  have hsplit : usoccSplit (String.mk
      (t ++ y1 :: y2 :: m1 :: m2 :: d1 :: d2 :: cp :: n1 :: n2 :: n3 :: n4 ::
        [n5])).toList =
      some (t, [y1, y2], [m1, m2], [d1, d2], cp, [n1, n2, n3, n4, n5]) := by
    show usoccSplit
        (t ++ y1 :: y2 :: m1 :: m2 :: d1 :: d2 :: cp :: n1 :: n2 :: n3 :: n4 :: [n5]) = _
    simp only [usoccSplit]
    rw [takeWhile_all_not isUpperA t y1 _ htU (digit_not_upper y1 hy1)]
    rw [List.drop_left]
    have htake : (y1 :: y2 :: m1 :: m2 :: d1 :: d2 :: cp :: n1 :: n2 :: n3 :: n4 ::
        [n5]).take 6 = [y1, y2, m1, m2, d1, d2] := rfl
    have hdrop : (y1 :: y2 :: m1 :: m2 :: d1 :: d2 :: cp :: n1 :: n2 :: n3 :: n4 ::
        [n5]).drop 6 = cp :: n1 :: n2 :: n3 :: n4 :: [n5] := rfl
    rw [htake, hdrop]
    rw [if_pos (by simp [ht1, ht4, hds])]
    have hcond : ((cp == 'C' || cp == 'P') &&
        ((n1 :: n2 :: n3 :: n4 :: [n5]).length == 5) &&
        (n1 :: n2 :: n3 :: n4 :: [n5]).all isDigitA) = true := by
      rcases hcp with rfl | rfl <;> simp [hs5]
    split
    · rename_i cp' tail heq
      injection heq with hcq htq
      subst hcq
      subst htq
      rw [if_pos hcond]
      rfl
    · rename_i heq
      exact List.noConfusion heq
  refine ⟨{ formatType := "US_OCC",
            originalCode := String.mk (t ++ y1 :: y2 :: m1 :: m2 :: d1 :: d2 :: cp ::
              n1 :: n2 :: n3 :: n4 :: [n5]),
            underlying := some (String.mk t),
            expiry := some (2000 + digitsToNat [y1, y2], digitsToNat [m1, m2],
              digitsToNat [d1, d2]),
            strike := some ((digitsToNat [n1, n2, n3, n4, n5] : ℚ) / 1000),
            optionType := some (if cp == 'C' then OptionType.CALL else OptionType.PUT),
            multiplier := 100, currency := "USD" }, ?_, rfl, rfl, rfl, rfl, rfl, rfl, rfl,
    ?_⟩
  · unfold usoccParse
    rw [hsplit]
    show (if validDate (2000 + digitsToNat [y1, y2]) (digitsToNat [m1, m2])
        (digitsToNat [d1, d2]) then _ else none) = _
    rw [if_pos hdate]
  · unfold formatUSOCC
    show some (String.mk ((String.mk t).toList ++ pad2 (2000 + digitsToNat [y1, y2] - 2000)
      ++ pad2 (digitsToNat [m1, m2]) ++ pad2 (digitsToNat [d1, d2]) ++
      [(if (if cp == 'C' then OptionType.CALL else OptionType.PUT) = OptionType.CALL
        then 'C' else 'P')] ++
      pad5 (truncQ ((digitsToNat [n1, n2, n3, n4, n5] : ℚ) / 1000 * 1000)).toNat)) = _
    have e0 : (String.mk t).toList = t := rfl
    have e1 : 2000 + digitsToNat [y1, y2] - 2000 = digitsToNat [y1, y2] := by omega
    have e2 : ((digitsToNat [n1, n2, n3, n4, n5] : ℚ) / 1000 * 1000) =
        (digitsToNat [n1, n2, n3, n4, n5] : ℚ) := by
      field_simp
    have e3 : (if (if cp == 'C' then OptionType.CALL else OptionType.PUT) =
        OptionType.CALL then 'C' else 'P') = cp := by
      rcases hcp with rfl | rfl <;> rfl
    rw [e0, e1, e2, truncQ_natCast, Int.toNat_ofNat, e3,
      pad2_digits y1 y2 hy1 hy2, pad2_digits m1 m2 hm1 hm2, pad2_digits d1 d2 hd1 hd2,
      pad5_digits n1 n2 n3 n4 n5 hn1 hn2 hn3 hn4 hn5]
    simp [List.append_assoc]

/-- Claim C7 witness: `SBET260116P41000` parses to a PUT on SBET expiring
2026-01-16 with strike 41 and reconstructs identically. -/
theorem c7_witness :
    ∃ r, usoccParse "SBET260116P41000" = some r ∧
      r.underlying = some "SBET" ∧
      r.expiry = some (2026, 1, 16) ∧
      r.optionType = some OptionType.PUT ∧
      r.strike = some ((41000 : ℚ) / 1000) ∧
      r.multiplier = 100 ∧
      formatUSOCC r = some "SBET260116P41000" := by
  obtain ⟨r, h1, h2, h3, h4, h5, h6, h7, h8, h9⟩ :=
    c7_usocc_roundtrip ['S', 'B', 'E', 'T'] '2' '6' '0' '1' '1' '6' 'P' '4' '1' '0' '0' '0'
      (by decide) (by decide) (by decide) (by decide) (Or.inr rfl) (by decide) (by decide)
  have hstr : String.mk (['S', 'B', 'E', 'T'] ++ '2' :: '6' :: '0' :: '1' :: '1' :: '6' ::
      'P' :: '4' :: '1' :: '0' :: '0' :: ['0']) = "SBET260116P41000" := rfl
  rw [hstr] at h1 h9
  refine ⟨r, h1, ?_, ?_, ?_, ?_, h7, h9⟩
  · rw [h3]
  · rw [h4]
    rfl
  · rw [h5]
    rfl
  · rw [h6]
    rfl

end FundMate
